import Mathlib

/-!
Verification of the kanban-markdown VS Code extension core: the GitHub
synchronization engine (`src/extension/GitHubService.ts`) and the feature
file storage layer (`src/extension/featureFileUtils.ts`).

Modelling conventions of this shallow embedding:
- ISO timestamp strings compared through `new Date(s).getTime()` are
  modelled as integers (the instants themselves).
- Filesystem paths are lists of components; `path.join(a, b)` is list
  append, `path.basename` is the last component.
- The set of files on disk is a finite list of paths; `vscode.workspace.fs`
  existence checks, renames and the single-writer assumption of the source
  are modelled by pure state passing on that list.
- Network effects are parameters: the fetched issue pages, the outcome of
  each PATCH push, and the authenticated user login are inputs to the pure
  pass function, mirroring exactly how the source consumes them.
- The JavaScript regexes `/^#\s+(.+)$/m` and `/^#\s+.+$/m` are modelled
  line-wise: a line matches when it starts with `#` followed by at least
  one whitespace character and at least one further character; the capture
  is the part after the whitespace run (or the last whitespace character
  when the whole remainder is whitespace, matching greedy backtracking).
-/

namespace Kanban

/-- Workflow states of a local record, from `FeatureStatus` in
`src/shared/types.ts` (the fixed union used by `GitHubService`). -/
inductive FeatureStatus where
  | backlog
  | todo
  | inProgress
  | review
  | done
deriving DecidableEq, Repr

/-- GitHub link metadata stored on a synced feature (`GitHubMeta`):
issue number, repository identifier, html url, and the instant of the
last successful reconciliation. -/
structure GitHubMeta where
  issueNumber : Nat
  repo : String
  htmlUrl : String
  syncedAt : Int
deriving DecidableEq, Repr

/-- Local record (`Feature` in `src/shared/types.ts`, plus the optional
`github` block used by `GitHubService`). Timestamps are instants. -/
structure Feature where
  id : String
  status : FeatureStatus
  priority : String
  assignee : Option String
  dueDate : Option String
  created : Int
  modified : Int
  completedAt : Option Int
  labels : List String
  order : Int
  content : String
  filePath : String
  github : Option GitHubMeta
deriving DecidableEq, Repr

/-- Remote issue open/closed state. -/
inductive IssueState where
  | open
  | closed
deriving DecidableEq, Repr

/-- Label object of the GitHub API (`{ name, color }`). -/
structure IssueLabel where
  name : String
  color : String
deriving DecidableEq, Repr

/-- Remote issue as consumed by the service (`GitHubIssue` interface in
`GitHubService.ts`). `pull_request` records presence of the marker field;
`assignee` is the login of the assignee when present; `updated_at` is the
update instant. -/
structure GitHubIssue where
  number : Nat
  title : String
  body : Option String
  state : IssueState
  html_url : String
  updated_at : Int
  pull_request : Bool
  assignee : Option String
  labels : List IssueLabel
deriving DecidableEq, Repr

/-- Result of one sync pass (`SyncResult`). -/
structure SyncResult where
  created : List Feature
  updated : List Feature
  pushed : List Feature
  errors : List String
deriving DecidableEq, Repr

/-! ### Line-wise model of the title and body regexes -/

/-- Splits a character list at newline characters, keeping empty segments,
exactly as line boundaries of the JavaScript `m`-flag regexes. -/
def splitLines : List Char → List (List Char)
  | [] => [[]]
  | c :: rest =>
    if c = '\n' then [] :: splitLines rest
    else
      match splitLines rest with
      | [] => [[c]]
      | l :: ls => (c :: l) :: ls

/-- Inverse of `splitLines`: rejoins lines with newline separators. -/
def joinLines : List (List Char) → List Char
  | [] => []
  | l :: ls =>
    match ls with
    | [] => l
    | _ :: _ => l ++ '\n' :: joinLines ls

/-- Match of one line against `^#\s+(.+)$`: the line must start with `#`,
then at least one whitespace character, then at least one more character.
The returned capture is the remainder after the whitespace run, or the
final whitespace character when the remainder is all whitespace (the
greedy `\s+` backtracks by exactly one character in that case). -/
def headingCapture : List Char → Option (List Char)
  | a :: c :: rest =>
    if a = '#' ∧ c.isWhitespace ∧ rest ≠ [] then
      let tail := (c :: rest).dropWhile Char.isWhitespace
      if tail = [] then some [(c :: rest).getLastD c]
      else some tail
    else none
  | _ => none

/-- Finds the first line matching the heading pattern, returning the lines
before it, its capture, and the lines after it. -/
def splitAtHeading : List (List Char) → Option (List (List Char) × List Char × List (List Char))
  | [] => none
  | l :: ls =>
    match headingCapture l with
    | some cap => some ([], cap, ls)
    | none =>
      match splitAtHeading ls with
      | some (pre, cap, post) => some (l :: pre, cap, post)
      | none => none

/-- Whitespace trim at both ends, modelling `String.prototype.trim()`. -/
def listTrim (s : List Char) : List Char :=
  ((s.dropWhile Char.isWhitespace).reverse.dropWhile Char.isWhitespace).reverse

/-- `getTitleFromContent` from `src/shared/types.ts`: first line matching
`^#\s+(.+)$`, capture trimmed; the fallback title is `Untitled`. -/
def getTitleFromContent (content : String) : String :=
  match splitAtHeading (splitLines content.data) with
  | some (_, cap, _) => ⟨listTrim cap⟩
  | none => "Untitled"

/-- Body extraction of `_pushFeatureToGitHub`: the text after the first
line matching `^#\s+.+$`, trimmed; when no line matches, the whole
content, untrimmed. -/
def extractBody (content : String) : String :=
  match splitAtHeading (splitLines content.data) with
  | some (_, _, post) => ⟨listTrim (joinLines post)⟩
  | none => content

/-- Content reconstruction shared by `_issueToFeature` and
`_updateFeatureFromIssue`: a heading line from the title, then a blank
line and the body when the body is nonempty. -/
def buildContent (title body : String) : String :=
  if body ≠ "" then "# " ++ title ++ "\n\n" ++ body else "# " ++ title

/-! ### Status mapping and record construction -/

/-- `_resolveOpenIssueStatus`: an open issue assigned to the authenticated
user maps to `todo`, otherwise to `backlog`. The JavaScript truthiness
check makes an empty login behave as no login. -/
def resolveOpenIssueStatus (currentUserLogin : Option String) (issue : GitHubIssue) : FeatureStatus :=
  match currentUserLogin with
  | some u => if u ≠ "" ∧ issue.assignee = some u then .todo else .backlog
  | none => .backlog

/-- State sent on push: `done` maps to closed, every other status to open. -/
def toRemoteState (st : FeatureStatus) : IssueState :=
  if st = .done then .closed else .open

/-- Triple `(title, body, state)` that `_pushFeatureToGitHub` sends in the
PATCH request body for a feature. -/
def pushExtract (f : Feature) : String × String × IssueState :=
  (getTitleFromContent f.content, extractBody f.content, toRemoteState f.status)

/-- `_issueToFeature`: builds a fresh local record from an unseen remote
issue. `genFilename` stands for `generateFeatureFilename` from
`src/shared/types.ts`, which is outside the embedded core. -/
def issueToFeature (repo : String) (currentUserLogin : Option String)
    (genFilename : String → String) (now : Int) (issue : GitHubIssue) : Feature :=
  let title := issue.title
  let body := issue.body.getD ""
  let content := if body ≠ "" then "# " ++ title ++ "\n\n" ++ body else "# " ++ title
  let status : FeatureStatus :=
    if issue.state = .closed then .done else resolveOpenIssueStatus currentUserLogin issue
  { id := genFilename title
    status := status
    priority := "medium"
    assignee :=
      match issue.assignee with
      | some l => if l ≠ "" then some l else none
      | none => none
    dueDate := none
    created := now
    modified := now
    completedAt := if status = .done then some now else none
    labels := issue.labels.map (·.name)
    order := 0
    content := content
    filePath := ""
    github := some ⟨issue.number, repo, issue.html_url, now⟩ }

/-- `_updateFeatureFromIssue`: applies a remote issue onto an existing
local record (a PULL). Content and labels are overwritten, status and
`completedAt` change only on a transition into or out of `done`, the
assignee is overwritten only when the remote assignee login is nonempty,
and `modified` and `github.syncedAt` are bumped to now. -/
def updateFeatureFromIssue (currentUserLogin : Option String) (now : Int)
    (f : Feature) (issue : GitHubIssue) : Feature :=
  let title := issue.title
  let body := issue.body.getD ""
  let content := if body ≠ "" then "# " ++ title ++ "\n\n" ++ body else "# " ++ title
  let resolvedStatus : FeatureStatus :=
    if issue.state = .closed then .done else resolveOpenIssueStatus currentUserLogin issue
  let statusCompleted : FeatureStatus × Option Int :=
    if f.status = .done ∧ resolvedStatus ≠ .done then (resolvedStatus, none)
    else if f.status ≠ .done ∧ resolvedStatus = .done then (.done, some now)
    else (f.status, f.completedAt)
  { f with
    content := content
    status := statusCompleted.1
    completedAt := statusCompleted.2
    assignee :=
      match issue.assignee with
      | some l => if l ≠ "" then some l else f.assignee
      | none => f.assignee
    labels := issue.labels.map (·.name)
    modified := now
    github := f.github.map (fun g => { g with syncedAt := now }) }

/-! ### API response classification -/

/-- Errors raised by `_apiRequest`: the rate-limit error carries the reset
header, the generic error the request method, path, status and body. -/
inductive ApiError where
  | rateLimit (resetTime : Option String)
  | apiError (method : String) (path : String) (status : Nat) (body : String)
deriving DecidableEq, Repr

/-- True exactly for the rate-limit error. -/
def ApiError.isRateLimit : ApiError → Bool
  | .rateLimit _ => true
  | .apiError _ _ _ _ => false

/-- Error classification of `_apiRequest`: a 403 whose
`X-RateLimit-Remaining` header reads `0` raises the rate-limit error;
any other non-2xx response raises the generic API error; a success
response raises nothing. -/
def classifyResponse (status : Nat) (rateLimitRemaining : Option String)
    (rateLimitReset : Option String) (method path bodyText : String) : Option ApiError :=
  if status = 403 ∧ rateLimitRemaining = some "0" then some (.rateLimit rateLimitReset)
  else if ¬(200 ≤ status ∧ status ≤ 299) then some (.apiError method path status bodyText)
  else none

/-! ### Pagination -/

/-- Page loop of `_fetchIssues`, generalized over the page contents served
by the API. Returns the aggregated non-pull-request issues together with
the list of page numbers actually requested. Each page is filtered before
aggregation; the loop stops after a page with fewer than 100 raw items. -/
def fetchIssuesLoop (pages : Nat → List GitHubIssue) : Nat → Nat → List GitHubIssue × List Nat
  | 0, _ => ([], [])
  | fuel + 1, page =>
    let data := pages page
    let issues := data.filter (fun i => !i.pull_request)
    if data.length < 100 then (issues, [page])
    else
      let rest := fetchIssuesLoop pages fuel (page + 1)
      (issues ++ rest.1, page :: rest.2)

/-- `_fetchIssues`: at most two pages, starting at page 1. -/
def fetchIssues (pages : Nat → List GitHubIssue) : List GitHubIssue × List Nat :=
  fetchIssuesLoop pages 2 1

/-! ### The sync pass -/

/-- Lookup in the `syncedByNumber` map (a JavaScript `Map` keyed by issue
number, holding indices into the feature store). -/
def mapGet (m : List (Nat × Nat)) (k : Nat) : Option Nat :=
  (m.find? (fun p => p.1 = k)).map (·.2)

/-- `Map.set` semantics: overwrites an existing key, otherwise appends. -/
def mapSet (m : List (Nat × Nat)) (k v : Nat) : List (Nat × Nat) :=
  if m.any (fun p => p.1 = k) then m.map (fun p => if p.1 = k then (k, v) else p)
  else m ++ [(k, v)]

/-- `Map.delete` semantics. -/
def mapDelete (m : List (Nat × Nat)) (k : Nat) : List (Nat × Nat) :=
  m.filter (fun p => p.1 ≠ k)

/-- Builds `syncedByNumber` from the feature list: only features with a
GitHub link naming the currently configured repository are indexed, by
their position in the store. -/
def buildIndex (repo : String) (features : List Feature) : List (Nat × Nat) :=
  (List.range features.length).foldl
    (fun m i =>
      match features[i]? with
      | some f =>
        match f.github with
        | some g => if g.repo = repo then mapSet m g.issueNumber i else m
        | none => m
      | none => m) []

/-- Mutable state threaded through the per-issue loop of `sync`: the
feature store (mutation happens in place in the source and is modelled by
index updates), the `syncedByNumber` map, the accumulating result, and
the warning notifications shown for failed pushes. -/
structure PassState where
  store : List Feature
  byNumber : List (Nat × Nat)
  result : SyncResult
  warnings : List String
deriving DecidableEq, Repr

/-- Warning text shown by `_pushFeatureToGitHub` on failure (the inner
network error message is abstracted away). -/
def pushWarning (issueNumber : Nat) : String :=
  "Failed to update GitHub issue " ++ toString issueNumber

/-- Initial pass state for a feature list. -/
def initState (repo : String) (features : List Feature) : PassState :=
  ⟨features, buildIndex repo features, ⟨[], [], [], []⟩, []⟩

/-- Applies a PULL inside the loop: the stored feature is overwritten by
`_updateFeatureFromIssue` and pushed onto `result.updated`. -/
def applyPull (currentUserLogin : Option String) (now : Int)
    (s : PassState) (idx : Nat) (f : Feature) (issue : GitHubIssue) : PassState :=
  let f' := updateFeatureFromIssue currentUserLogin now f issue
  { s with
    store := s.store.set idx f'
    result := { s.result with updated := s.result.updated ++ [f'] } }

/-- Applies a PUSH inside the loop: on success `github.syncedAt` is bumped
to now and the feature is pushed onto `result.pushed`; on failure nothing
is mutated and a warning notification is recorded. -/
def applyPush (pushOutcome : Nat → Bool) (now : Int)
    (s : PassState) (idx : Nat) (f : Feature) (issue : GitHubIssue) : PassState :=
  if pushOutcome issue.number then
    let f' := { f with github := f.github.map (fun g => { g with syncedAt := now }) }
    { s with
      store := s.store.set idx f'
      result := { s.result with pushed := s.result.pushed ++ [f'] } }
  else
    { s with warnings := s.warnings ++ [pushWarning issue.number] }

/-- Body of the per-issue loop of `sync` (lines 92 to 128 of
`GitHubService.ts`): an unknown issue is created locally; a known issue is
compared against `syncedAt` and the local `modified` instant, with GitHub
winning exact ties when both sides changed; afterwards the issue number is
removed from the map. The two unreachable fallbacks (an index outside the
store, a stored feature without a link) leave the state unchanged. -/
def processOne (currentUserLogin : Option String) (genFilename : String → String)
    (pushOutcome : Nat → Bool) (repo : String) (now : Int)
    (s : PassState) (issue : GitHubIssue) : PassState :=
  match mapGet s.byNumber issue.number with
  | none =>
    let f := issueToFeature repo currentUserLogin genFilename now issue
    { s with result := { s.result with created := s.result.created ++ [f] } }
  | some idx =>
    match s.store[idx]? with
    | none => s
    | some f =>
      match f.github with
      | none => s
      | some g =>
        let issueUpdated := issue.updated_at
        let syncedAt := g.syncedAt
        let localModified := f.modified
        let s' :=
          if issueUpdated > syncedAt ∧ localModified > syncedAt then
            if issueUpdated ≥ localModified then applyPull currentUserLogin now s idx f issue
            else applyPush pushOutcome now s idx f issue
          else if issueUpdated > syncedAt then applyPull currentUserLogin now s idx f issue
          else if localModified > syncedAt then applyPush pushOutcome now s idx f issue
          else s
        { s' with byNumber := mapDelete s'.byNumber issue.number }

/-- The per-issue loop over the fetched issue list. -/
def runPass (currentUserLogin : Option String) (genFilename : String → String)
    (pushOutcome : Nat → Bool) (repo : String) (now : Int)
    (features : List Feature) (issues : List GitHubIssue) : PassState :=
  issues.foldl (processOne currentUserLogin genFilename pushOutcome repo now)
    (initState repo features)

/-- Observable outcome of one call to `sync`: the returned result, the
final value of the `_syncing` guard, the final feature store, the warning
notifications, and whether the issue fetch was performed. -/
structure SyncRun where
  result : SyncResult
  syncing : Bool
  store : List Feature
  warnings : List String
  fetched : Bool
deriving DecidableEq, Repr

/-- Repository resolution performed on demand at the start of `sync`: the
configured setting wins, otherwise the auto-detected repository is used. -/
def repoAfterInit (repo configRepo detected : Option String) : Option String :=
  match repo with
  | some r => some r
  | none =>
    match configRepo with
    | some r => some r
    | none => detected

/-- `GitHubService.sync`: rejects re-entrant calls while a pass is in
flight, resolves the repository, fetches the issues (`fetch` is the
outcome of `_fetchIssues`, an exception message on failure), runs the
per-issue loop, and always clears the `_syncing` guard on the way out. -/
def sync (syncing : Bool) (repo configRepo detected : Option String)
    (fetch : Except String (List GitHubIssue))
    (currentUserLogin : Option String) (genFilename : String → String)
    (pushOutcome : Nat → Bool) (now : Int) (features : List Feature) : SyncRun :=
  if syncing then
    ⟨⟨[], [], [], ["Sync already in progress"]⟩, syncing, features, [], false⟩
  else
    match repoAfterInit repo configRepo detected with
    | none =>
      ⟨⟨[], [], [], ["No GitHub repository configured or detected"]⟩, false, features, [], false⟩
    | some r =>
      match fetch with
      | .error e => ⟨⟨[], [], [], [e]⟩, false, features, [], true⟩
      | .ok issues =>
        let st := runPass currentUserLogin genFilename pushOutcome r now features issues
        ⟨st.result, false, st.store, st.warnings, true⟩

/-! ### File storage layer (`featureFileUtils.ts`) -/

/-- Filesystem path as a list of components; `path.join` is append and
`path.basename` is the last component. -/
abbrev FsPath := List String

/-- Default status folders (`DEFAULT_STATUS_FOLDERS`). -/
def DEFAULT_STATUS_FOLDERS : List String := ["backlog", "todo", "in-progress", "review", "done"]

/-- `getStatusFolders`: the configured column ids when the setting is
present and nonempty, otherwise the defaults. -/
def getStatusFolders (columns : Option (List String)) : List String :=
  match columns with
  | some cols => if cols.length > 0 then cols else DEFAULT_STATUS_FOLDERS
  | none => DEFAULT_STATUS_FOLDERS

/-- `getFeatureFilePath`: deterministic location of a record file. The
`.md` suffix is part of the final component. -/
def getFeatureFilePath (featuresDir : FsPath) (status : String) (filename : String) : FsPath :=
  featuresDir ++ [status, filename ++ ".md"]

/-- Decimal digit characters of a natural number, most significant first,
computed with structural fuel (the quotient shrinks at every step, so fuel
`n` always suffices for `n`). -/
def natReprAux : Nat → Nat → List Char
  | 0, _ => []
  | fuel + 1, n => if n = 0 then [] else natReprAux fuel (n / 10) ++ [Nat.digitChar (n % 10)]

/-- Decimal string of a natural number, the JavaScript rendering of
`${counter}` in the collision loop. -/
def natRepr (n : Nat) : String :=
  if n = 0 then "0" else ⟨natReprAux n n⟩

/-- Split of a filename into base and extension at the last dot, as
`path.basename(f, ext)` and `path.extname(f)` do: the extension starts at
the last dot provided it is not the leading character; otherwise the
extension is empty. The two parts always concatenate back to the name. -/
def splitExt (filename : String) : String × String :=
  let l := filename.data
  if l.contains '.' then
    let tailLen := (l.reverse.takeWhile (fun c => c ≠ '.')).length
    let i := l.length - 1 - tailLen
    if i = 0 then (filename, "")
    else (⟨l.take i⟩, ⟨l.drop i⟩)
  else (filename, "")

/-- Candidate file name tried by the collision loop at counter `k`: the
plain filename at `k = 0`, then `base-k` with the extension re-attached. -/
def candidateName (base ext filename : String) (k : Nat) : String :=
  if k = 0 then filename else base ++ "-" ++ natRepr k ++ ext

/-- Candidate full path tried by the collision loop at counter `k`. -/
def candPath (targetDir : FsPath) (base ext filename : String) (k : Nat) : FsPath :=
  targetDir ++ [candidateName base ext filename k]

/-- The `while (await fileExists(targetPath))` loop: starting at counter
`k`, returns the first counter whose candidate path is not on disk. Fuel
`fs.length + 2` always suffices because the suffixed candidates are
pairwise distinct and the filesystem is finite. -/
def firstFreeAux (fs : List FsPath) (cand : Nat → FsPath) : Nat → Nat → Nat
  | 0, k => k
  | fuel + 1, k => if cand k ∈ fs then firstFreeAux fs cand fuel (k + 1) else k

/-- First free counter for a relocation target. -/
def firstFree (fs : List FsPath) (targetDir : FsPath) (base ext filename : String) : Nat :=
  firstFreeAux fs (candPath targetDir base ext filename) (fs.length + 2) 0

/-- Outcome of `moveFeatureFile`: the returned path, the resulting set of
files on disk, and whether a rename was performed. -/
structure MoveResult where
  newPath : FsPath
  fs : List FsPath
  renamed : Bool
deriving DecidableEq, Repr

/-- `moveFeatureFile`: computes the target path under the status folder,
returns immediately when it equals the current path, otherwise walks the
numeric-suffix candidates until a free name is found and renames the
source file to it. Directory creation has no effect on the file set. -/
def moveFeatureFile (fs : List FsPath) (currentPath : FsPath)
    (featuresDir : FsPath) (newStatus : String) : MoveResult :=
  let filename := currentPath.getLastD ""
  let targetDir := featuresDir ++ [newStatus]
  let target0 := targetDir ++ [filename]
  if currentPath = target0 then ⟨currentPath, fs, false⟩
  else
    let be := splitExt filename
    let k := firstFree fs targetDir be.1 be.2 filename
    let targetPath := candPath targetDir be.1 be.2 filename k
    ⟨targetPath, targetPath :: fs.erase currentPath, true⟩

/-- Component-wise model of Node `path.relative`: strips the longest
common prefix and prepends one `..` component per remaining component of
the base path. -/
def stripCommon : List String → List String → List String × List String
  | a :: as, b :: bs => if a = b then stripCommon as bs else (a :: as, b :: bs)
  | as, bs => (as, bs)

/-- Relative path from `base` to `p` as a component list. -/
def pathRelative (base p : FsPath) : List String :=
  let s := stripCommon base p
  s.1.map (fun _ => "..") ++ s.2

/-- `getStatusFromPath`: splits the relative path from the features root
and returns the first component exactly when there are two components;
no check against the recognized status folders is performed. -/
def getStatusFromPath (filePath featuresDir : FsPath) : Option String :=
  let parts := pathRelative featuresDir filePath
  if parts.length = 2 then parts[0]? else none

/-! ### Helper lemmas -/

/-- Stripping a common prefix removes exactly the base components. -/
lemma stripCommon_append (base rest : List String) : stripCommon base (base ++ rest) = ([], rest) := by
  induction base with
  | nil =>
    cases rest with
    | nil => rfl
    | cons b bs => rfl
  | cons a as ih => simpa [stripCommon] using ih

/-- Relative path from the root to a path below it is the remaining
component list. -/
lemma pathRelative_append (base rest : List String) : pathRelative base (base ++ rest) = rest := by
  simp [pathRelative, stripCommon_append]

/-! ### Claim theorems -/

/-- Claim C10: applying a pull (`_updateFeatureFromIssue`) leaves `id`,
`created`, `priority`, `dueDate`, `order`, `filePath` and the identifying
fields of the GitHub link unchanged, bumps `modified` and `syncedAt` to
now, and changes `status` and `completedAt` only on a transition into or
out of the `done` state. -/
theorem c10_pull_frame (login : Option String) (now : Int) (f : Feature) (issue : GitHubIssue) :
    (updateFeatureFromIssue login now f issue).id = f.id ∧
    (updateFeatureFromIssue login now f issue).created = f.created ∧
    (updateFeatureFromIssue login now f issue).priority = f.priority ∧
    (updateFeatureFromIssue login now f issue).dueDate = f.dueDate ∧
    (updateFeatureFromIssue login now f issue).order = f.order ∧
    (updateFeatureFromIssue login now f issue).filePath = f.filePath ∧
    (updateFeatureFromIssue login now f issue).github.map GitHubMeta.issueNumber
      = f.github.map GitHubMeta.issueNumber ∧
    (updateFeatureFromIssue login now f issue).github.map GitHubMeta.repo
      = f.github.map GitHubMeta.repo ∧
    (updateFeatureFromIssue login now f issue).github.map GitHubMeta.htmlUrl
      = f.github.map GitHubMeta.htmlUrl ∧
    (updateFeatureFromIssue login now f issue).modified = now ∧
    (updateFeatureFromIssue login now f issue).github.map GitHubMeta.syncedAt
      = f.github.map (fun _ => now) ∧
    (((updateFeatureFromIssue login now f issue).status = f.status ∧
        (updateFeatureFromIssue login now f issue).completedAt = f.completedAt) ∨
      (f.status ≠ .done ∧ (updateFeatureFromIssue login now f issue).status = .done ∧
        (updateFeatureFromIssue login now f issue).completedAt = some now) ∨
      (f.status = .done ∧ (updateFeatureFromIssue login now f issue).status ≠ .done ∧
        (updateFeatureFromIssue login now f issue).completedAt = none)) := by
  refine ⟨rfl, rfl, rfl, rfl, rfl, rfl, ?_, ?_, ?_, rfl, ?_, ?_⟩
  · cases hg : f.github <;> simp [updateFeatureFromIssue, hg]
  · cases hg : f.github <;> simp [updateFeatureFromIssue, hg]
  · cases hg : f.github <;> simp [updateFeatureFromIssue, hg]
  · cases hg : f.github <;> simp [updateFeatureFromIssue, hg]
  · simp only [updateFeatureFromIssue]
    set rs := if issue.state = IssueState.closed then FeatureStatus.done
      else resolveOpenIssueStatus login issue with hrs
    split_ifs with h1 h2
    · exact Or.inr (Or.inr ⟨h1.1, h1.2, rfl⟩)
    · exact Or.inr (Or.inl ⟨h2.1, rfl, rfl⟩)
    · exact Or.inl ⟨rfl, rfl⟩

/-- Claim C6: a `sync` call made while a pass is in flight immediately
returns the single "already syncing" error with empty outcome lists,
leaves the guard and the feature store untouched and performs no fetch;
a call that enters (guard clear) always exits with the guard clear,
whether the pass succeeds, fails to resolve a repository, or the fetch
raises an exception. -/
theorem c6_single_flight (repo configRepo detected : Option String)
    (fetch : Except String (List GitHubIssue)) (login : Option String)
    (genFilename : String → String) (pushOutcome : Nat → Bool) (now : Int)
    (features : List Feature) :
    sync true repo configRepo detected fetch login genFilename pushOutcome now features =
      ⟨⟨[], [], [], ["Sync already in progress"]⟩, true, features, [], false⟩ ∧
    (sync false repo configRepo detected fetch login genFilename pushOutcome now
      features).syncing = false := by
  constructor
  · rfl
  · simp only [sync]
    cases repoAfterInit repo configRepo detected with
    | none => rfl
    | some r => cases fetch <;> rfl

/-- Claim C7: `_fetchIssues` returns only non-pull-request records; when
the API honors the page size of 100 the aggregate is capped at 200
records; page 2 is requested exactly when page 1 returns a full 100 raw
items, so at most two pages are ever requested. -/
theorem c7_fetch_cap (pages : Nat → List GitHubIssue) :
    (∀ i ∈ (fetchIssues pages).1, i.pull_request = false) ∧
    ((∀ p, (pages p).length ≤ 100) → (fetchIssues pages).1.length ≤ 200) ∧
    ((pages 1).length < 100 → (fetchIssues pages).2 = [1]) ∧
    (100 ≤ (pages 1).length → (fetchIssues pages).2 = [1, 2]) := by
  have hfilter : ∀ (l : List GitHubIssue) (i : GitHubIssue),
      i ∈ l.filter (fun i => !i.pull_request) → i.pull_request = false := by
    intro l i hi
    have := (List.mem_filter.mp hi).2
    simpa using this
  have hflen : ∀ (l : List GitHubIssue), (l.filter (fun i => !i.pull_request)).length ≤ l.length :=
    fun l => List.length_filter_le _ l
  by_cases h1 : (pages 1).length < 100
  · have hv : fetchIssues pages = ((pages 1).filter (fun i => !i.pull_request), [1]) := by
      simp only [fetchIssues, fetchIssuesLoop]
      rw [if_pos h1]
    rw [hv]
    refine ⟨?_, ?_, ?_, ?_⟩
    · intro i hi
      exact hfilter _ _ hi
    · intro hlen
      exact le_trans (hflen (pages 1)) (le_trans (hlen 1) (by norm_num))
    · intro _
      rfl
    · intro hge
      omega
  · by_cases h2 : (pages (1 + 1)).length < 100
    · have hv : fetchIssues pages =
          ((pages 1).filter (fun i => !i.pull_request) ++
            (pages 2).filter (fun i => !i.pull_request), [1, 2]) := by
        simp only [fetchIssues, fetchIssuesLoop]
        rw [if_neg h1, if_pos h2]
      rw [hv]
      refine ⟨?_, ?_, ?_, ?_⟩
      · intro i hi
        rcases List.mem_append.mp hi with hi | hi
        · exact hfilter _ _ hi
        · exact hfilter _ _ hi
      · intro hlen
        have a1 := le_trans (hflen (pages 1)) (hlen 1)
        have a2 := le_trans (hflen (pages 2)) (hlen 2)
        simp only [List.length_append]
        omega
      · intro h
        omega
      · intro _
        rfl
    · have hv : fetchIssues pages =
          ((pages 1).filter (fun i => !i.pull_request) ++
            ((pages 2).filter (fun i => !i.pull_request) ++ []), [1, 2]) := by
        simp only [fetchIssues, fetchIssuesLoop]
        rw [if_neg h1, if_neg h2]
      rw [hv]
      refine ⟨?_, ?_, ?_, ?_⟩
      · intro i hi
        rcases List.mem_append.mp hi with hi | hi
        · exact hfilter _ _ hi
        · rcases List.mem_append.mp hi with hi | hi
          · exact hfilter _ _ hi
          · simp at hi
      · intro hlen
        have a1 := le_trans (hflen (pages 1)) (hlen 1)
        have a2 := le_trans (hflen (pages 2)) (hlen 2)
        simp only [List.length_append, List.length_nil]
        omega
      · intro h
        omega
      · intro _
        rfl

/-- Claim C4: a 403 response whose rate-limit-remaining header reads `0`
is classified as the rate-limit error (carrying the reset header); every
other response that raises at all raises the generic API error; and a
pass whose fetch raises is reported with exactly that one error and empty
created, updated and pushed lists (the fetch precedes every per-record
apply, so no earlier applied entry exists to retain and none is lost). -/
theorem c4_rate_limit :
    (∀ (reset : Option String) (m p b : String),
      classifyResponse 403 (some "0") reset m p b = some (.rateLimit reset)) ∧
    (∀ (status : Nat) (remaining reset : Option String) (m p b : String) (e : ApiError),
      ¬(status = 403 ∧ remaining = some "0") →
      classifyResponse status remaining reset m p b = some e → e.isRateLimit = false) ∧
    (∀ (r : String) (configRepo detected : Option String) (msg : String)
      (login : Option String) (genFilename : String → String) (pushOutcome : Nat → Bool)
      (now : Int) (features : List Feature),
      sync false (some r) configRepo detected (.error msg) login genFilename pushOutcome
        now features = ⟨⟨[], [], [], [msg]⟩, false, features, [], true⟩) := by
  refine ⟨?_, ?_, ?_⟩
  · intro reset m p b
    simp [classifyResponse]
  · intro status remaining reset m p b e hnot hcl
    simp only [classifyResponse] at hcl
    rw [if_neg hnot] at hcl
    split at hcl
    · cases hcl
      rfl
    · cases hcl
  · intro r configRepo detected msg login genFilename pushOutcome now features
    rfl

/-- Claim C5 counterexample: a path exactly two levels below the root but
under a directory that is in no configured status set is still mapped to
a status, contradicting the claim that such paths yield absent. -/
theorem c5_counterexample :
    getStatusFromPath ["root", "garbage", "x.md"] ["root"] = some "garbage" ∧
    "garbage" ∉ getStatusFolders none ∧
    "garbage" ∉ getStatusFolders (some ["backlog", "todo", "in-progress", "review", "done"]) := by
  decide

/-- Claim C5 (amended): `getStatusFromPath` returns the first component
of the relative path whenever the path sits exactly two levels below the
root, with no check of that component against the recognized status set;
paths directly under the root, the root itself, and deeper paths yield
absent. -/
theorem c5_status_from_path (root : FsPath) (d name : String) (rest : List String) :
    getStatusFromPath (root ++ [d, name]) root = some d ∧
    getStatusFromPath (root ++ [name]) root = none ∧
    getStatusFromPath root root = none ∧
    getStatusFromPath (root ++ [d, name] ++ rest) root =
      (if rest = [] then some d else none) := by
  refine ⟨?_, ?_, ?_, ?_⟩
  · simp [getStatusFromPath, pathRelative_append]
  · simp [getStatusFromPath, pathRelative_append]
  · have h : root ++ ([] : List String) = root := by simp
    have := pathRelative_append root []
    simp only [List.append_nil] at this
    simp [getStatusFromPath, this]
  · cases rest with
    | nil => simp [getStatusFromPath, pathRelative_append]
    | cons x xs =>
      have : root ++ [d, name] ++ (x :: xs) = root ++ ([d, name] ++ (x :: xs)) := by simp
      rw [this]
      simp [getStatusFromPath, pathRelative_append]

/-- Claim C1: the per-record step of a sync pass follows the conflict
decision table for a linked record paired with a fetched issue. When
neither side changed since `syncedAt` the record is not mutated and lands
in no outcome list; when only the remote changed it is pulled; when only
the local side changed it is pushed; when both changed the remote wins
exactly when `remote.updated_at >= local.modified` (ties included),
otherwise the record is pushed. -/
theorem c1_conflict_table (login : Option String) (genFilename : String → String)
    (pushOutcome : Nat → Bool) (repo : String) (now : Int) (s : PassState)
    (issue : GitHubIssue) (idx : Nat) (f : Feature) (g : GitHubMeta)
    (hidx : mapGet s.byNumber issue.number = some idx)
    (hf : s.store[idx]? = some f) (hg : f.github = some g) :
    (issue.updated_at ≤ g.syncedAt → f.modified ≤ g.syncedAt →
      processOne login genFilename pushOutcome repo now s issue =
        { s with byNumber := mapDelete s.byNumber issue.number }) ∧
    (issue.updated_at > g.syncedAt → f.modified ≤ g.syncedAt →
      processOne login genFilename pushOutcome repo now s issue =
        { s with
          store := s.store.set idx (updateFeatureFromIssue login now f issue)
          byNumber := mapDelete s.byNumber issue.number
          result := { s.result with
            updated := s.result.updated ++ [updateFeatureFromIssue login now f issue] } }) ∧
    (issue.updated_at ≤ g.syncedAt → f.modified > g.syncedAt →
      processOne login genFilename pushOutcome repo now s issue =
        (if pushOutcome issue.number then
          { s with
            store := s.store.set idx
              { f with github := f.github.map (fun g0 => { g0 with syncedAt := now }) }
            byNumber := mapDelete s.byNumber issue.number
            result := { s.result with pushed := s.result.pushed ++
              [{ f with github := f.github.map (fun g0 => { g0 with syncedAt := now }) }] } }
        else
          { s with
            byNumber := mapDelete s.byNumber issue.number
            warnings := s.warnings ++ [pushWarning issue.number] })) ∧
    (issue.updated_at > g.syncedAt → f.modified > g.syncedAt →
      ((issue.updated_at ≥ f.modified →
        processOne login genFilename pushOutcome repo now s issue =
          { s with
            store := s.store.set idx (updateFeatureFromIssue login now f issue)
            byNumber := mapDelete s.byNumber issue.number
            result := { s.result with
              updated := s.result.updated ++ [updateFeatureFromIssue login now f issue] } }) ∧
      (issue.updated_at < f.modified →
        processOne login genFilename pushOutcome repo now s issue =
          (if pushOutcome issue.number then
            { s with
              store := s.store.set idx
                { f with github := f.github.map (fun g0 => { g0 with syncedAt := now }) }
              byNumber := mapDelete s.byNumber issue.number
              result := { s.result with pushed := s.result.pushed ++
                [{ f with github := f.github.map (fun g0 => { g0 with syncedAt := now }) }] } }
          else
            { s with
              byNumber := mapDelete s.byNumber issue.number
              warnings := s.warnings ++ [pushWarning issue.number] })))) := by
  refine ⟨?_, ?_, ?_, ?_⟩
  · intro hiu hlm
    simp only [processOne, hidx, hf, hg]
    rw [if_neg (by omega : ¬(issue.updated_at > g.syncedAt ∧ f.modified > g.syncedAt)),
      if_neg (by omega : ¬ issue.updated_at > g.syncedAt),
      if_neg (by omega : ¬ f.modified > g.syncedAt)]
  · intro hiu hlm
    simp only [processOne, hidx, hf, hg]
    rw [if_neg (by omega : ¬(issue.updated_at > g.syncedAt ∧ f.modified > g.syncedAt)),
      if_pos (by omega : issue.updated_at > g.syncedAt)]
    rfl
  · intro hiu hlm
    simp only [processOne, hidx, hf, hg]
    rw [if_neg (by omega : ¬(issue.updated_at > g.syncedAt ∧ f.modified > g.syncedAt)),
      if_neg (by omega : ¬ issue.updated_at > g.syncedAt),
      if_pos (by omega : f.modified > g.syncedAt)]
    by_cases hp : pushOutcome issue.number
    · rw [if_pos hp]
      simp only [applyPush, if_pos hp]
      rw [hg]
    · rw [if_neg hp]
      simp only [applyPush, if_neg hp]
  · intro hiu hlm
    constructor
    · intro htie
      simp only [processOne, hidx, hf, hg]
      rw [if_pos ⟨hiu, hlm⟩, if_pos htie]
      rfl
    · intro htie
      simp only [processOne, hidx, hf, hg]
      rw [if_pos ⟨hiu, hlm⟩, if_neg (by omega : ¬ issue.updated_at ≥ f.modified)]
      by_cases hp : pushOutcome issue.number
      · rw [if_pos hp]
        simp only [applyPush, if_pos hp]
        rw [hg]
      · rw [if_neg hp]
        simp only [applyPush, if_neg hp]

/-- Claim C1 witness: a concrete linked record and issue in the skip case
of the table, checked end to end. -/
theorem c1_conflict_table_witness :
    processOne none (fun t => t) (fun _ => true) "o/r" 100
      ⟨[⟨"f", .todo, "medium", none, none, 0, 5, none, [], 0, "# T", "p",
          some ⟨1, "o/r", "u", 10⟩⟩],
        [(1, 0)], ⟨[], [], [], []⟩, []⟩
      ⟨1, "T", none, .open, "u", 7, false, none, []⟩ =
    { (⟨[⟨"f", .todo, "medium", none, none, 0, 5, none, [], 0, "# T", "p",
          some ⟨1, "o/r", "u", 10⟩⟩],
        [(1, 0)], ⟨[], [], [], []⟩, []⟩ : PassState) with
      byNumber := mapDelete [(1, 0)] 1 } :=
  (c1_conflict_table none (fun t => t) (fun _ => true) "o/r" 100
    ⟨[⟨"f", .todo, "medium", none, none, 0, 5, none, [], 0, "# T", "p",
        some ⟨1, "o/r", "u", 10⟩⟩],
      [(1, 0)], ⟨[], [], [], []⟩, []⟩
    ⟨1, "T", none, .open, "u", 7, false, none, []⟩ 0
    ⟨"f", .todo, "medium", none, none, 0, 5, none, [], 0, "# T", "p",
      some ⟨1, "o/r", "u", 10⟩⟩
    ⟨1, "o/r", "u", 10⟩ (by decide) (by decide) (by decide)).1
    (by decide) (by decide)

/-- Claim C3 counterexample: a pass in which the single push fails ends
with an empty error list (the failure is surfaced only as a warning
notification), refuting the claim that the failure is appended to the
outcome error list. -/
theorem c3_counterexample :
    (sync false (some "o/r") none none
      (.ok [⟨1, "T", some "b", .open, "u", 5, false, none, []⟩])
      none (fun t => t) (fun _ => false) 100
      [⟨"f", .todo, "medium", none, none, 0, 50, none, [], 0, "# T\n\nb", "p",
        some ⟨1, "o/r", "u", 10⟩⟩]).result.errors = [] ∧
    (sync false (some "o/r") none none
      (.ok [⟨1, "T", some "b", .open, "u", 5, false, none, []⟩])
      none (fun t => t) (fun _ => false) 100
      [⟨"f", .todo, "medium", none, none, 0, 50, none, [], 0, "# T\n\nb", "p",
        some ⟨1, "o/r", "u", 10⟩⟩]).warnings = [pushWarning 1] := by
  constructor
  · rfl
  · rfl

/-- Claim C3 (amended): when the push of a linked record fails, the record
is left fully unchanged (in particular `syncedAt`), the outcome error list
is not extended — the failure is surfaced as a user-facing warning
notification instead — and the loop continues with the remaining fetched
issues from exactly this state. -/
theorem c3_push_failure (login : Option String) (genFilename : String → String)
    (pushOutcome : Nat → Bool) (repo : String) (now : Int) (s : PassState)
    (issue : GitHubIssue) (idx : Nat) (f : Feature) (g : GitHubMeta)
    (hidx : mapGet s.byNumber issue.number = some idx)
    (hf : s.store[idx]? = some f) (hg : f.github = some g)
    (hdec : f.modified > g.syncedAt ∧
      (issue.updated_at ≤ g.syncedAt ∨ issue.updated_at < f.modified))
    (hfail : pushOutcome issue.number = false) :
    processOne login genFilename pushOutcome repo now s issue =
      { s with
        byNumber := mapDelete s.byNumber issue.number
        warnings := s.warnings ++ [pushWarning issue.number] } ∧
    (∀ rest : List GitHubIssue,
      (issue :: rest).foldl (processOne login genFilename pushOutcome repo now) s =
        rest.foldl (processOne login genFilename pushOutcome repo now)
          (processOne login genFilename pushOutcome repo now s issue)) := by
  constructor
  · simp only [processOne, hidx, hf, hg]
    rcases hdec with ⟨hlm, hiu | hiu⟩
    · rw [if_neg (by omega : ¬(issue.updated_at > g.syncedAt ∧ f.modified > g.syncedAt)),
        if_neg (by omega : ¬ issue.updated_at > g.syncedAt), if_pos hlm]
      simp only [applyPush, hfail]
      rw [if_neg (by simp)]
    · by_cases hiu2 : issue.updated_at > g.syncedAt
      · rw [if_pos ⟨hiu2, hlm⟩, if_neg (by omega : ¬ issue.updated_at ≥ f.modified)]
        simp only [applyPush, hfail]
        rw [if_neg (by simp)]
      · rw [if_neg (by tauto), if_neg hiu2, if_pos hlm]
        simp only [applyPush, hfail]
        rw [if_neg (by simp)]
  · intro rest
    rfl

/-- Claim C3 witness: the amended statement applied to a concrete failing
push. -/
theorem c3_push_failure_witness :
    processOne none (fun t => t) (fun _ => false) "o/r" 100
      ⟨[⟨"f", .todo, "medium", none, none, 0, 50, none, [], 0, "# T", "p",
          some ⟨1, "o/r", "u", 10⟩⟩],
        [(1, 0)], ⟨[], [], [], []⟩, []⟩
      ⟨1, "T", none, .open, "u", 5, false, none, []⟩ =
    { (⟨[⟨"f", .todo, "medium", none, none, 0, 50, none, [], 0, "# T", "p",
          some ⟨1, "o/r", "u", 10⟩⟩],
        [(1, 0)], ⟨[], [], [], []⟩, []⟩ : PassState) with
      byNumber := mapDelete [(1, 0)] 1
      warnings := [pushWarning 1] } :=
  (c3_push_failure none (fun t => t) (fun _ => false) "o/r" 100
    ⟨[⟨"f", .todo, "medium", none, none, 0, 50, none, [], 0, "# T", "p",
        some ⟨1, "o/r", "u", 10⟩⟩],
      [(1, 0)], ⟨[], [], [], []⟩, []⟩
    ⟨1, "T", none, .open, "u", 5, false, none, []⟩ 0
    ⟨"f", .todo, "medium", none, none, 0, 50, none, [], 0, "# T", "p",
      some ⟨1, "o/r", "u", 10⟩⟩
    ⟨1, "o/r", "u", 10⟩ (by decide) (by decide) (by decide)
    (by constructor <;> [decide; exact Or.inl (by decide)]) (by decide)).1

/-- Claim C4 witness: a concrete 403 without an exhausted rate limit is
classified as the generic error, not the rate-limit error. -/
theorem c4_rate_limit_witness :
    ApiError.isRateLimit (.apiError "GET" "/x" 403 "forbidden") = false :=
  c4_rate_limit.2.1 403 (some "7") none "GET" "/x" "forbidden"
    (.apiError "GET" "/x" 403 "forbidden") (by decide) (by decide)

/-- Claim C7 witness: a concrete short first page stops pagination after
page 1. -/
theorem c7_fetch_cap_witness :
    (fetchIssues (fun _ => [⟨1, "t", none, .open, "", 0, false, none, []⟩])).2 = [1] :=
  (c7_fetch_cap (fun _ => [⟨1, "t", none, .open, "", 0, false, none, []⟩])).2.2.1 (by decide)

/-! ### Collision loop facts -/

/-- The fuel-based digit printer agrees with the base-10 digit expansion
whenever the fuel is at least the number. -/
lemma natReprAux_eq : ∀ (fuel n : Nat), n ≤ fuel →
    natReprAux fuel n = ((Nat.digits 10 n).map Nat.digitChar).reverse := by
  intro fuel
  induction fuel with
  | zero =>
    intro n hn
    have hz : n = 0 := by omega
    subst hz
    simp [natReprAux]
  | succ fuel ih =>
    intro n hn
    by_cases h0 : n = 0
    · subst h0
      simp [natReprAux]
    · have hlt : n / 10 < n := Nat.div_lt_self (Nat.pos_of_ne_zero h0) (by norm_num)
      have hdiv : n / 10 ≤ fuel := by omega
      simp only [natReprAux, if_neg h0]
      rw [ih _ hdiv, Nat.digits_def' (by norm_num : (1 : ℕ) < 10) (Nat.pos_of_ne_zero h0)]
      simp

/-- Decimal strings of distinct numbers are distinct. -/
lemma natRepr_inj : ∀ a b : Nat, natRepr a = natRepr b → a = b := by
  have key : ∀ n : Nat, n ≠ 0 →
      (natRepr n).data = ((Nat.digits 10 n).map Nat.digitChar).reverse := by
    intro n hn
    simp only [natRepr, if_neg hn]
    exact natReprAux_eq n n le_rfl
  have digit_lt : ∀ n d, d ∈ Nat.digits 10 n → d < 10 :=
    fun n d hd => Nat.digits_lt_base (by norm_num) hd
  have dcinj : ∀ a < 10, ∀ b < 10, Nat.digitChar a = Nat.digitChar b → a = b := by decide
  have mapinj : ∀ (l1 l2 : List Nat), (∀ x ∈ l1, x < 10) → (∀ x ∈ l2, x < 10) →
      l1.map Nat.digitChar = l2.map Nat.digitChar → l1 = l2 := by
    intro l1
    induction l1 with
    | nil =>
      intro l2 _ _ h
      cases l2 with
      | nil => rfl
      | cons b bs => simp at h
    | cons a as ih =>
      intro l2 h1 h2 h
      cases l2 with
      | nil => simp at h
      | cons b bs =>
        simp only [List.map_cons, List.cons.injEq] at h
        have hab : a = b := dcinj a (h1 a (by simp)) b (h2 b (by simp)) h.1
        subst hab
        rw [ih bs (fun x hx => h1 x (by simp [hx])) (fun x hx => h2 x (by simp [hx])) h.2]
  have zero_case : ∀ b : Nat, b ≠ 0 → natRepr 0 ≠ natRepr b := by
    intro b hb h
    have hd := congrArg String.data h
    rw [key b hb] at hd
    have hd2 : (Nat.digits 10 b).map Nat.digitChar = ['0'] := by
      have := congrArg List.reverse hd
      simpa using this.symm
    have : Nat.digits 10 b = [0] := by
      have h0 : ([0] : List Nat).map Nat.digitChar = ['0'] := by decide
      exact mapinj _ _ (digit_lt b) (by simp) (hd2.trans h0.symm)
    have hb0 : b = 0 := by
      have := Nat.ofDigits_digits 10 b
      rw [this.symm, ‹Nat.digits 10 b = [0]›]
      simp [Nat.ofDigits]
    exact hb hb0
  intro a b h
  by_cases ha : a = 0 <;> by_cases hb : b = 0
  · omega
  · exact absurd (ha ▸ h) (zero_case b hb)
  · exact absurd (hb ▸ h).symm (zero_case a ha)
  · have hd := congrArg String.data h
    rw [key a ha, key b hb] at hd
    have hmap : (Nat.digits 10 a).map Nat.digitChar = (Nat.digits 10 b).map Nat.digitChar := by
      have := congrArg List.reverse hd
      simpa using this
    have hdig : Nat.digits 10 a = Nat.digits 10 b :=
      mapinj _ _ (digit_lt a) (digit_lt b) hmap
    exact Nat.digits.injective 10 hdig

/-- Suffixed candidate names are pairwise distinct across counters. -/
lemma candidateName_inj (base ext filename : String) : ∀ a b : Nat, 1 ≤ a → 1 ≤ b →
    candidateName base ext filename a = candidateName base ext filename b → a = b := by
  intro a b ha hb h
  simp only [candidateName] at h
  rw [if_neg (by omega), if_neg (by omega)] at h
  have hd := congrArg String.data h
  simp only [String.data_append] at hd
  have h1 := List.append_cancel_right hd
  have h2 := List.append_cancel_left h1
  have hs : natRepr a = natRepr b := by
    cases hra : natRepr a
    cases hrb : natRepr b
    rw [hra, hrb] at h2
    exact congrArg String.mk (by simpa using h2)
  exact natRepr_inj a b hs

/-- Suffixed candidate paths are pairwise distinct across counters. -/
lemma candPath_inj (targetDir : FsPath) (base ext filename : String) :
    ∀ a b : Nat, 1 ≤ a → 1 ≤ b →
    candPath targetDir base ext filename a = candPath targetDir base ext filename b → a = b := by
  intro a b ha hb h
  simp only [candPath] at h
  have := List.append_cancel_left h
  simp only [List.cons.injEq] at this
  exact candidateName_inj base ext filename a b ha hb this.1

/-- On a finite filesystem some candidate within the fuel bound is free. -/
lemma exists_free (fs : List FsPath) (cand : Nat → FsPath)
    (hinj : ∀ a b : Nat, 1 ≤ a → 1 ≤ b → cand a = cand b → a = b) :
    ∃ j, j < fs.length + 2 ∧ cand j ∉ fs := by
  by_contra hcon
  push_neg at hcon
  have hnodup : ((List.range (fs.length + 1)).map (fun i => cand (i + 1))).Nodup := by
    refine (List.nodup_range _).map_on ?_
    intro x _ y _ hxy
    have := hinj (x + 1) (y + 1) (by omega) (by omega) hxy
    omega
  have hsub : ((List.range (fs.length + 1)).map (fun i => cand (i + 1))).toFinset ⊆
      fs.toFinset := by
    intro x hx
    rw [List.mem_toFinset] at hx ⊢
    obtain ⟨i, hi, rfl⟩ := List.mem_map.mp hx
    have : i < fs.length + 1 := by simpa using hi
    exact hcon (i + 1) (by omega)
  have h1 : ((List.range (fs.length + 1)).map (fun i => cand (i + 1))).toFinset.card =
      fs.length + 1 := by
    rw [List.toFinset_card_of_nodup hnodup]
    simp
  have h2 := Finset.card_le_card hsub
  have h3 := List.toFinset_card_le fs
  omega

/-- The collision loop returns the first free counter: its candidate is
not on disk and every earlier candidate is. -/
lemma firstFreeAux_spec (fs : List FsPath) (cand : Nat → FsPath) :
    ∀ (fuel k : Nat), (∃ j, j < fuel ∧ cand (k + j) ∉ fs) →
      cand (firstFreeAux fs cand fuel k) ∉ fs ∧
      k ≤ firstFreeAux fs cand fuel k ∧
      ∀ j, k ≤ j → j < firstFreeAux fs cand fuel k → cand j ∈ fs := by
  intro fuel
  induction fuel with
  | zero =>
    intro k h
    obtain ⟨j, hj, _⟩ := h
    omega
  | succ fuel ih =>
    intro k h
    by_cases hk : cand k ∈ fs
    · have hrec : ∃ j, j < fuel ∧ cand (k + 1 + j) ∉ fs := by
        obtain ⟨j, hj, hfree⟩ := h
        cases j with
        | zero => simp at hfree; exact absurd hk hfree
        | succ j0 =>
          refine ⟨j0, by omega, ?_⟩
          have he : k + 1 + j0 = k + (j0 + 1) := by omega
          rw [he]
          exact hfree
      have hspec := ih (k + 1) hrec
      simp only [firstFreeAux, if_pos hk]
      refine ⟨hspec.1, by omega, ?_⟩
      intro j hj1 hj2
      by_cases hjk : j = k
      · subst hjk
        exact hk
      · exact hspec.2.2 j (by omega) hj2
    · simp only [firstFreeAux, if_neg hk]
      exact ⟨hk, le_rfl, fun j hj1 hj2 => absurd hj2 (by omega)⟩

/-- Claim C2: relocation is a no-op when the computed target equals the
current path; otherwise it renames the source to the first free candidate
name, which is never an existing file (numeric suffixes are appended
before the extension until a free name is found, each candidate checked
for existence); consequently two successive relocations of two different
source files aimed at the same destination name leave two distinct files
on disk, neither overwritten. -/
theorem c2_move_collision_safe
    (fs : List FsPath) (src1 src2 : FsPath) (featuresDir : FsPath) (newStatus : String)
    (hsrc1 : src1 ∈ fs) (hsrc2 : src2 ∈ fs) (hne : src1 ≠ src2)
    (hfn : src1.getLastD "" = src2.getLastD "")
    (hs1 : src1 ≠ featuresDir ++ [newStatus] ++ [src1.getLastD ""])
    (hs2 : src2 ≠ featuresDir ++ [newStatus] ++ [src2.getLastD ""]) :
    (∀ (fsx : List FsPath) (p dir : FsPath) (st : String),
      p = dir ++ [st] ++ [p.getLastD ""] →
      moveFeatureFile fsx p dir st = ⟨p, fsx, false⟩) ∧
    (∀ (fsx : List FsPath) (p dir : FsPath) (st : String),
      p ≠ dir ++ [st] ++ [p.getLastD ""] →
      (moveFeatureFile fsx p dir st).renamed = true ∧
      (moveFeatureFile fsx p dir st).newPath ∉ fsx ∧
      (moveFeatureFile fsx p dir st).fs =
        (moveFeatureFile fsx p dir st).newPath :: fsx.erase p ∧
      ∃ k, (moveFeatureFile fsx p dir st).newPath =
          candPath (dir ++ [st]) (splitExt (p.getLastD "")).1 (splitExt (p.getLastD "")).2
            (p.getLastD "") k ∧
        ∀ j, j < k → candPath (dir ++ [st]) (splitExt (p.getLastD "")).1
            (splitExt (p.getLastD "")).2 (p.getLastD "") j ∈ fsx) ∧
    ((moveFeatureFile fs src1 featuresDir newStatus).newPath ≠
      (moveFeatureFile (moveFeatureFile fs src1 featuresDir newStatus).fs src2 featuresDir
        newStatus).newPath ∧
      (moveFeatureFile fs src1 featuresDir newStatus).newPath ∈
        (moveFeatureFile (moveFeatureFile fs src1 featuresDir newStatus).fs src2 featuresDir
          newStatus).fs ∧
      (moveFeatureFile (moveFeatureFile fs src1 featuresDir newStatus).fs src2 featuresDir
        newStatus).newPath ∈
        (moveFeatureFile (moveFeatureFile fs src1 featuresDir newStatus).fs src2 featuresDir
          newStatus).fs) := by
  have part1 : ∀ (fsx : List FsPath) (p dir : FsPath) (st : String),
      p = dir ++ [st] ++ [p.getLastD ""] →
      moveFeatureFile fsx p dir st = ⟨p, fsx, false⟩ := by
    intro fsx p dir st hp
    simp only [moveFeatureFile]
    rw [if_pos (by simpa using hp)]
  have part2 : ∀ (fsx : List FsPath) (p dir : FsPath) (st : String),
      p ≠ dir ++ [st] ++ [p.getLastD ""] →
      (moveFeatureFile fsx p dir st).renamed = true ∧
      (moveFeatureFile fsx p dir st).newPath ∉ fsx ∧
      (moveFeatureFile fsx p dir st).fs =
        (moveFeatureFile fsx p dir st).newPath :: fsx.erase p ∧
      ∃ k, (moveFeatureFile fsx p dir st).newPath =
          candPath (dir ++ [st]) (splitExt (p.getLastD "")).1 (splitExt (p.getLastD "")).2
            (p.getLastD "") k ∧
        ∀ j, j < k → candPath (dir ++ [st]) (splitExt (p.getLastD "")).1
            (splitExt (p.getLastD "")).2 (p.getLastD "") j ∈ fsx := by
    intro fsx p dir st hp
    have heq : moveFeatureFile fsx p dir st =
        ⟨candPath (dir ++ [st]) (splitExt (p.getLastD "")).1 (splitExt (p.getLastD "")).2
            (p.getLastD "")
            (firstFree fsx (dir ++ [st]) (splitExt (p.getLastD "")).1
              (splitExt (p.getLastD "")).2 (p.getLastD "")),
          candPath (dir ++ [st]) (splitExt (p.getLastD "")).1 (splitExt (p.getLastD "")).2
            (p.getLastD "")
            (firstFree fsx (dir ++ [st]) (splitExt (p.getLastD "")).1
              (splitExt (p.getLastD "")).2 (p.getLastD "")) :: fsx.erase p,
          true⟩ := by
      simp only [moveFeatureFile]
      rw [if_neg (by simpa using hp)]
    have hinj := candPath_inj (dir ++ [st]) (splitExt (p.getLastD "")).1
      (splitExt (p.getLastD "")).2 (p.getLastD "")
    obtain ⟨j, hj, hfree⟩ := exists_free fsx
      (candPath (dir ++ [st]) (splitExt (p.getLastD "")).1 (splitExt (p.getLastD "")).2
        (p.getLastD "")) hinj
    have hspec := firstFreeAux_spec fsx
      (candPath (dir ++ [st]) (splitExt (p.getLastD "")).1 (splitExt (p.getLastD "")).2
        (p.getLastD "")) (fsx.length + 2) 0 ⟨j, hj, by simpa using hfree⟩
    rw [heq]
    refine ⟨rfl, hspec.1, rfl, ⟨firstFree fsx (dir ++ [st]) (splitExt (p.getLastD "")).1
      (splitExt (p.getLastD "")).2 (p.getLastD ""), rfl, ?_⟩⟩
    intro j0 hj0
    exact hspec.2.2 j0 (by omega) hj0
  refine ⟨part1, part2, ?_⟩
  obtain ⟨hr1, hnp1, hfs1, _⟩ := part2 fs src1 featuresDir newStatus hs1
  obtain ⟨hr2, hnp2, hfs2, _⟩ :=
    part2 (moveFeatureFile fs src1 featuresDir newStatus).fs src2 featuresDir newStatus hs2
  have hin1 : (moveFeatureFile fs src1 featuresDir newStatus).newPath ∈
      (moveFeatureFile fs src1 featuresDir newStatus).fs := by
    rw [hfs1]
    exact List.mem_cons_self _ _
  have hne12 : (moveFeatureFile fs src1 featuresDir newStatus).newPath ≠ src2 :=
    fun h => hnp1 (h ▸ hsrc2)
  refine ⟨?_, ?_, ?_⟩
  · intro h
    exact hnp2 (h ▸ hin1)
  · rw [hfs2]
    exact List.mem_cons_of_mem _ ((List.mem_erase_of_ne hne12).mpr hin1)
  · rw [hfs2]
    exact List.mem_cons_self _ _

/-- Claim C2 witness: two concrete relocations of different sources into
the same destination name produce two distinct surviving files. -/
theorem c2_move_collision_safe_witness :
    ((moveFeatureFile [["r", "todo", "a.md"], ["r", "review", "a.md"]]
        ["r", "todo", "a.md"] ["r"] "done").newPath ≠
      (moveFeatureFile (moveFeatureFile [["r", "todo", "a.md"], ["r", "review", "a.md"]]
          ["r", "todo", "a.md"] ["r"] "done").fs ["r", "review", "a.md"] ["r"]
        "done").newPath ∧
      (moveFeatureFile [["r", "todo", "a.md"], ["r", "review", "a.md"]]
          ["r", "todo", "a.md"] ["r"] "done").newPath ∈
        (moveFeatureFile (moveFeatureFile [["r", "todo", "a.md"], ["r", "review", "a.md"]]
            ["r", "todo", "a.md"] ["r"] "done").fs ["r", "review", "a.md"] ["r"]
          "done").fs ∧
      (moveFeatureFile (moveFeatureFile [["r", "todo", "a.md"], ["r", "review", "a.md"]]
          ["r", "todo", "a.md"] ["r"] "done").fs ["r", "review", "a.md"] ["r"]
        "done").newPath ∈
        (moveFeatureFile (moveFeatureFile [["r", "todo", "a.md"], ["r", "review", "a.md"]]
            ["r", "todo", "a.md"] ["r"] "done").fs ["r", "review", "a.md"] ["r"]
          "done").fs) :=
  (c2_move_collision_safe [["r", "todo", "a.md"], ["r", "review", "a.md"]]
    ["r", "todo", "a.md"] ["r", "review", "a.md"] ["r"] "done"
    (by decide) (by decide) (by decide) (by decide) (by decide) (by decide)).2.2

/-! ### Pass frame invariant -/

/-- A feature carries a GitHub link naming repository `r`. -/
def LinkedTo (r : String) (x : Feature) : Prop :=
  ∃ g, x.github = some g ∧ g.repo = r

/-- Membership in a `Map.set` image: either an old entry or the new one. -/
lemma mapSet_mem (m : List (Nat × Nat)) (k v : Nat) (p : Nat × Nat)
    (hp : p ∈ mapSet m k v) : p ∈ m ∨ p = (k, v) := by
  simp only [mapSet] at hp
  split at hp
  · obtain ⟨q, hq, hpq⟩ := List.mem_map.mp hp
    by_cases hqk : q.1 = k
    · right
      rw [if_pos hqk] at hpq
      exact hpq.symm
    · left
      rw [if_neg hqk] at hpq
      exact hpq ▸ hq
  · rcases List.mem_append.mp hp with h | h
    · exact Or.inl h
    · right
      simpa using h

/-- Entries deleted from the map were entries of the map. -/
lemma mapDelete_sub (m : List (Nat × Nat)) (k : Nat) (p : Nat × Nat)
    (hp : p ∈ mapDelete m k) : p ∈ m :=
  (List.mem_filter.mp hp).1

/-- A successful map lookup exhibits a map entry. -/
lemma mapGet_mem (m : List (Nat × Nat)) (k v : Nat) (h : mapGet m k = some v) :
    (k, v) ∈ m := by
  simp only [mapGet, Option.map_eq_some'] at h
  obtain ⟨q, hq, hv⟩ := h
  have hqm := List.mem_of_find?_eq_some hq
  have hqk : q.1 = k := by simpa using List.find?_some hq
  have : q = (k, v) := by
    cases q
    simp_all
  exact this ▸ hqm

/-- Every index placed in `syncedByNumber` points at a stored feature
linked to the configured repository. -/
lemma buildIndex_mem (r : String) (features : List Feature) :
    ∀ p ∈ buildIndex r features, ∃ f', features[p.2]? = some f' ∧ LinkedTo r f' := by
  have main : ∀ (l : List Nat) (m : List (Nat × Nat)),
      (∀ p ∈ m, ∃ f', features[p.2]? = some f' ∧ LinkedTo r f') →
      ∀ p ∈ l.foldl (fun m i =>
        match features[i]? with
        | some f =>
          match f.github with
          | some g => if g.repo = r then mapSet m g.issueNumber i else m
          | none => m
        | none => m) m,
      ∃ f', features[p.2]? = some f' ∧ LinkedTo r f' := by
    intro l
    induction l with
    | nil =>
      intro m hm p hp
      exact hm p (by simpa using hp)
    | cons i is ih =>
      intro m hm p hp
      simp only [List.foldl_cons] at hp
      refine ih _ ?_ p hp
      intro q hq
      cases hfi : features[i]? with
      | none =>
        simp only [hfi] at hq
        exact hm q hq
      | some f =>
        simp only [hfi] at hq
        cases hgi : f.github with
        | none =>
          simp only [hgi] at hq
          exact hm q hq
        | some g =>
          simp only [hgi] at hq
          by_cases hrep : g.repo = r
          · rw [if_pos hrep] at hq
            rcases mapSet_mem _ _ _ _ hq with h | h
            · exact hm q h
            · subst h
              exact ⟨f, hfi, ⟨g, hgi, hrep⟩⟩
          · rw [if_neg hrep] at hq
            exact hm q hq
  intro p hp
  simp only [buildIndex] at hp
  exact main (List.range features.length) [] (by simp) p hp

/-- Loop invariant of the per-issue fold used for the frame claim: the
unlinked record at `idx` is stored untouched, the map never points at
`idx`, every index in the map stores a feature linked to `r`, and every
feature in any outcome list is linked to `r`. -/
def PassInv (r : String) (idx : Nat) (f : Feature) (s : PassState) : Prop :=
  s.store[idx]? = some f ∧
  (∀ p ∈ s.byNumber, p.2 ≠ idx) ∧
  (∀ p ∈ s.byNumber, ∀ f', s.store[p.2]? = some f' → LinkedTo r f') ∧
  (∀ x ∈ s.result.created, LinkedTo r x) ∧
  (∀ x ∈ s.result.updated, LinkedTo r x) ∧
  (∀ x ∈ s.result.pushed, LinkedTo r x)

/-- A pull preserves the frame invariant. -/
lemma passInv_applyPull (r : String) (idx : Nat) (f : Feature) (login : Option String)
    (now : Int) (s : PassState) (j : Nat) (f0 : Feature) (issue : GitHubIssue)
    (hinv : PassInv r idx f s) (hjne : j ≠ idx) (hj : s.store[j]? = some f0)
    (hlink : LinkedTo r f0) : PassInv r idx f (applyPull login now s j f0 issue) := by
  obtain ⟨h1, h2, h3, h4, h5, h6⟩ := hinv
  have hjlt : j < s.store.length := (List.getElem?_eq_some.mp hj).1
  have hlink' : LinkedTo r (updateFeatureFromIssue login now f0 issue) := by
    obtain ⟨g, hg, hr⟩ := hlink
    exact ⟨{ g with syncedAt := now }, by simp [updateFeatureFromIssue, hg], hr⟩
  refine ⟨?_, h2, ?_, h4, ?_, h6⟩
  · simp only [applyPull]
    rw [List.getElem?_set_ne (fun h => hjne h)]
    exact h1
  · intro p hp f' hf'
    simp only [applyPull] at hf'
    by_cases hpj : p.2 = j
    · rw [hpj, List.getElem?_set_eq hjlt] at hf'
      cases hf'
      exact hlink'
    · rw [List.getElem?_set_ne (fun h => hpj h.symm)] at hf'
      exact h3 p hp f' hf'
  · intro x hx
    simp only [applyPull, List.mem_append, List.mem_singleton] at hx
    rcases hx with hx | hx
    · exact h5 x hx
    · exact hx ▸ hlink'

/-- A push (successful or failed) preserves the frame invariant. -/
lemma passInv_applyPush (r : String) (idx : Nat) (f : Feature) (pushOutcome : Nat → Bool)
    (now : Int) (s : PassState) (j : Nat) (f0 : Feature) (issue : GitHubIssue)
    (hinv : PassInv r idx f s) (hjne : j ≠ idx) (hj : s.store[j]? = some f0)
    (hlink : LinkedTo r f0) : PassInv r idx f (applyPush pushOutcome now s j f0 issue) := by
  obtain ⟨h1, h2, h3, h4, h5, h6⟩ := hinv
  have hjlt : j < s.store.length := (List.getElem?_eq_some.mp hj).1
  have hlink' : LinkedTo r
      { f0 with github := f0.github.map (fun g => { g with syncedAt := now }) } := by
    obtain ⟨g, hg, hr⟩ := hlink
    exact ⟨{ g with syncedAt := now }, by simp [hg], hr⟩
  simp only [applyPush]
  by_cases hp : pushOutcome issue.number
  · rw [if_pos hp]
    refine ⟨?_, h2, ?_, h4, h5, ?_⟩
    · rw [List.getElem?_set_ne (fun h => hjne h)]
      exact h1
    · intro p hpm f' hf'
      by_cases hpj : p.2 = j
      · rw [hpj, List.getElem?_set_eq hjlt] at hf'
        cases hf'
        exact hlink'
      · rw [List.getElem?_set_ne (fun h => hpj h.symm)] at hf'
        exact h3 p hpm f' hf'
    · intro x hx
      simp only [List.mem_append, List.mem_singleton] at hx
      rcases hx with hx | hx
      · exact h6 x hx
      · exact hx ▸ hlink'
  · rw [if_neg hp]
    exact ⟨h1, h2, h3, h4, h5, h6⟩

/-- Deleting a map key preserves the frame invariant. -/
lemma passInv_delete (r : String) (idx : Nat) (f : Feature) (s : PassState) (n : Nat)
    (hinv : PassInv r idx f s) :
    PassInv r idx f { s with byNumber := mapDelete s.byNumber n } := by
  obtain ⟨h1, h2, h3, h4, h5, h6⟩ := hinv
  exact ⟨h1, fun p hp => h2 p (mapDelete_sub _ _ _ hp),
    fun p hp => h3 p (mapDelete_sub _ _ _ hp), h4, h5, h6⟩

/-- Reduction of the loop body on an unknown issue number. -/
lemma processOne_none_eq (login : Option String) (genFilename : String → String)
    (pushOutcome : Nat → Bool) (repo : String) (now : Int) (s : PassState)
    (issue : GitHubIssue) (h : mapGet s.byNumber issue.number = none) :
    processOne login genFilename pushOutcome repo now s issue =
      { s with result := { s.result with created :=
        s.result.created ++ [issueToFeature repo login genFilename now issue] } } := by
  simp only [processOne, h]

/-- Reduction of the loop body when the index misses the store (never
reached from a well-formed map; the source would fault here). -/
lemma processOne_missing_eq (login : Option String) (genFilename : String → String)
    (pushOutcome : Nat → Bool) (repo : String) (now : Int) (s : PassState)
    (issue : GitHubIssue) (idx : Nat) (h : mapGet s.byNumber issue.number = some idx)
    (h2 : s.store[idx]? = none) :
    processOne login genFilename pushOutcome repo now s issue = s := by
  simp only [processOne, h, h2]

/-- Reduction of the loop body when the stored feature has no link (never
reached from a well-formed map). -/
lemma processOne_nolink_eq (login : Option String) (genFilename : String → String)
    (pushOutcome : Nat → Bool) (repo : String) (now : Int) (s : PassState)
    (issue : GitHubIssue) (idx : Nat) (f0 : Feature)
    (h : mapGet s.byNumber issue.number = some idx)
    (h2 : s.store[idx]? = some f0) (h3 : f0.github = none) :
    processOne login genFilename pushOutcome repo now s issue = s := by
  simp only [processOne, h, h2, h3]

/-- Reduction of the loop body on a linked record: conflict decision then
map deletion. -/
lemma processOne_linked_eq (login : Option String) (genFilename : String → String)
    (pushOutcome : Nat → Bool) (repo : String) (now : Int) (s : PassState)
    (issue : GitHubIssue) (idx : Nat) (f0 : Feature) (g0 : GitHubMeta)
    (h : mapGet s.byNumber issue.number = some idx)
    (h2 : s.store[idx]? = some f0) (h3 : f0.github = some g0) :
    processOne login genFilename pushOutcome repo now s issue =
      { (if issue.updated_at > g0.syncedAt ∧ f0.modified > g0.syncedAt then
          (if issue.updated_at ≥ f0.modified then applyPull login now s idx f0 issue
            else applyPush pushOutcome now s idx f0 issue)
        else if issue.updated_at > g0.syncedAt then applyPull login now s idx f0 issue
        else if f0.modified > g0.syncedAt then applyPush pushOutcome now s idx f0 issue
        else s) with
        byNumber := mapDelete
          (if issue.updated_at > g0.syncedAt ∧ f0.modified > g0.syncedAt then
            (if issue.updated_at ≥ f0.modified then applyPull login now s idx f0 issue
              else applyPush pushOutcome now s idx f0 issue)
          else if issue.updated_at > g0.syncedAt then applyPull login now s idx f0 issue
          else if f0.modified > g0.syncedAt then applyPush pushOutcome now s idx f0 issue
          else s).byNumber issue.number } := by
  simp only [processOne, h, h2, h3]

/-- One step of the per-issue loop preserves the frame invariant. -/
lemma passInv_step (r : String) (idx : Nat) (f : Feature) (login : Option String)
    (genFilename : String → String) (pushOutcome : Nat → Bool) (now : Int)
    (s : PassState) (issue : GitHubIssue) (hinv : PassInv r idx f s) :
    PassInv r idx f (processOne login genFilename pushOutcome r now s issue) := by
  obtain ⟨h1, h2, h3, h4, h5, h6⟩ := hinv
  cases hmg : mapGet s.byNumber issue.number with
  | none =>
    rw [processOne_none_eq login genFilename pushOutcome r now s issue hmg]
    refine ⟨h1, h2, h3, ?_, h5, h6⟩
    intro x hx
    simp only [List.mem_append, List.mem_singleton] at hx
    rcases hx with hx | hx
    · exact h4 x hx
    · exact hx ▸ ⟨⟨issue.number, r, issue.html_url, now⟩, rfl, rfl⟩
  | some j =>
    have hmem : (issue.number, j) ∈ s.byNumber := mapGet_mem _ _ _ hmg
    have hjne : j ≠ idx := h2 _ hmem
    cases hsj : s.store[j]? with
    | none =>
      rw [processOne_missing_eq login genFilename pushOutcome r now s issue j hmg hsj]
      exact ⟨h1, h2, h3, h4, h5, h6⟩
    | some f0 =>
      have hlink : LinkedTo r f0 := h3 _ hmem f0 hsj
      cases hg0 : f0.github with
      | none =>
        rw [processOne_nolink_eq login genFilename pushOutcome r now s issue j f0 hmg hsj hg0]
        exact ⟨h1, h2, h3, h4, h5, h6⟩
      | some g0 =>
        rw [processOne_linked_eq login genFilename pushOutcome r now s issue j f0 g0 hmg hsj hg0]
        apply passInv_delete
        split_ifs with hc1 hc2 hc3 hc4
        · exact passInv_applyPull r idx f login now s j f0 issue
            ⟨h1, h2, h3, h4, h5, h6⟩ hjne hsj hlink
        · exact passInv_applyPush r idx f pushOutcome now s j f0 issue
            ⟨h1, h2, h3, h4, h5, h6⟩ hjne hsj hlink
        · exact passInv_applyPull r idx f login now s j f0 issue
            ⟨h1, h2, h3, h4, h5, h6⟩ hjne hsj hlink
        · exact passInv_applyPush r idx f pushOutcome now s j f0 issue
            ⟨h1, h2, h3, h4, h5, h6⟩ hjne hsj hlink
        · exact ⟨h1, h2, h3, h4, h5, h6⟩

/-- The frame invariant survives the whole per-issue loop. -/
lemma passInv_fold (r : String) (idx : Nat) (f : Feature) (login : Option String)
    (genFilename : String → String) (pushOutcome : Nat → Bool) (now : Int) :
    ∀ (issues : List GitHubIssue) (s : PassState), PassInv r idx f s →
      PassInv r idx f
        (issues.foldl (processOne login genFilename pushOutcome r now) s) := by
  intro issues
  induction issues with
  | nil =>
    intro s hs
    simpa using hs
  | cons i is ih =>
    intro s hs
    simp only [List.foldl_cons]
    exact ih _ (passInv_step r idx f login genFilename pushOutcome now s i hs)

/-- The frame invariant holds at the start of a pass for a record without
a link to the configured repository. -/
lemma passInv_init (r : String) (idx : Nat) (f : Feature) (features : List Feature)
    (hf : features[idx]? = some f) (hnl : ∀ g, f.github = some g → g.repo ≠ r) :
    PassInv r idx f (initState r features) := by
  refine ⟨hf, ?_, ?_, by simp [initState], by simp [initState], by simp [initState]⟩
  · intro p hp
    obtain ⟨f', hf', g, hg, hr⟩ := buildIndex_mem r features p hp
    intro hpi
    rw [hpi, hf] at hf'
    cases hf'
    exact hnl g hg hr
  · intro p hp f' hf'
    simp only [initState] at hp hf'
    obtain ⟨f'', hf'', hl⟩ := buildIndex_mem r features p hp
    rw [hf''] at hf'
    cases hf'
    exact hl

/-- Claim C8: a record with no GitHub link, or linked to a repository
other than the configured one, is left untouched in the store by a whole
sync pass and appears in none of created, updated or pushed. -/
theorem c8_unlinked_frame (login : Option String) (genFilename : String → String)
    (pushOutcome : Nat → Bool) (r : String) (now : Int) (features : List Feature)
    (issues : List GitHubIssue) (idx : Nat) (f : Feature)
    (hf : features[idx]? = some f)
    (hnl : ∀ g, f.github = some g → g.repo ≠ r) :
    (runPass login genFilename pushOutcome r now features issues).store[idx]? = some f ∧
    f ∉ (runPass login genFilename pushOutcome r now features issues).result.created ∧
    f ∉ (runPass login genFilename pushOutcome r now features issues).result.updated ∧
    f ∉ (runPass login genFilename pushOutcome r now features issues).result.pushed := by
  have hinv := passInv_fold r idx f login genFilename pushOutcome now issues
    (initState r features) (passInv_init r idx f features hf hnl)
  have hnot : ¬ LinkedTo r f := by
    rintro ⟨g, hg, hr⟩
    exact hnl g hg hr
  simp only [runPass]
  exact ⟨hinv.1, fun hm => hnot (hinv.2.2.2.1 f hm),
    fun hm => hnot (hinv.2.2.2.2.1 f hm), fun hm => hnot (hinv.2.2.2.2.2 f hm)⟩

/-- Claim C8 witness: an unlinked feature survives a concrete pass with
one fetched issue, and lands in no outcome list. -/
theorem c8_unlinked_frame_witness :
    (runPass none (fun t => t) (fun _ => true) "o/r" 100
      [⟨"f", .todo, "medium", none, none, 0, 5, none, [], 0, "# T", "p", none⟩]
      [⟨1, "T", none, .open, "u", 7, false, none, []⟩]).store[0]? =
      some ⟨"f", .todo, "medium", none, none, 0, 5, none, [], 0, "# T", "p", none⟩ ∧
    (⟨"f", .todo, "medium", none, none, 0, 5, none, [], 0, "# T", "p", none⟩ : Feature) ∉
      (runPass none (fun t => t) (fun _ => true) "o/r" 100
        [⟨"f", .todo, "medium", none, none, 0, 5, none, [], 0, "# T", "p", none⟩]
        [⟨1, "T", none, .open, "u", 7, false, none, []⟩]).result.created ∧
    (⟨"f", .todo, "medium", none, none, 0, 5, none, [], 0, "# T", "p", none⟩ : Feature) ∉
      (runPass none (fun t => t) (fun _ => true) "o/r" 100
        [⟨"f", .todo, "medium", none, none, 0, 5, none, [], 0, "# T", "p", none⟩]
        [⟨1, "T", none, .open, "u", 7, false, none, []⟩]).result.updated ∧
    (⟨"f", .todo, "medium", none, none, 0, 5, none, [], 0, "# T", "p", none⟩ : Feature) ∉
      (runPass none (fun t => t) (fun _ => true) "o/r" 100
        [⟨"f", .todo, "medium", none, none, 0, 5, none, [], 0, "# T", "p", none⟩]
        [⟨1, "T", none, .open, "u", 7, false, none, []⟩]).result.pushed :=
  c8_unlinked_frame none (fun t => t) (fun _ => true) "o/r" 100
    [⟨"f", .todo, "medium", none, none, 0, 5, none, [], 0, "# T", "p", none⟩]
    [⟨1, "T", none, .open, "u", 7, false, none, []⟩] 0
    ⟨"f", .todo, "medium", none, none, 0, 5, none, [], 0, "# T", "p", none⟩
    (by decide) (fun g h => Option.noConfusion h)

/-! ### Round-trip string lemmas -/

/-- Splitting never produces an empty list of lines. -/
lemma splitLines_ne_nil : ∀ s : List Char, splitLines s ≠ [] := by
  intro s
  cases s with
  | nil => simp [splitLines]
  | cons c rest =>
    simp only [splitLines]
    split
    · simp
    · split <;> simp

/-- Rejoining the split lines restores the original text. -/
lemma joinLines_splitLines : ∀ s : List Char, joinLines (splitLines s) = s := by
  intro s
  induction s with
  | nil => rfl
  | cons c rest ih =>
    by_cases hc : c = '\n'
    · subst hc
      simp only [splitLines, if_pos rfl]
      cases hL : splitLines rest with
      | nil => exact absurd hL (splitLines_ne_nil rest)
      | cons l ls =>
        simp only [joinLines]
        rw [hL] at ih
        simpa using ih
    · simp only [splitLines, if_neg hc]
      cases hL : splitLines rest with
      | nil => exact absurd hL (splitLines_ne_nil rest)
      | cons l ls =>
        rw [hL] at ih
        cases ls with
        | nil =>
          simp only [joinLines] at ih ⊢
          rw [ih]
        | cons x xs =>
          simp only [joinLines] at ih ⊢
          rw [← ih]
          simp

/-- A newline-free text splits into a single line. -/
lemma splitLines_no_newline : ∀ s : List Char, '\n' ∉ s → splitLines s = [s] := by
  intro s
  induction s with
  | nil => intro _; rfl
  | cons c rest ih =>
    intro h
    have hc : c ≠ '\n' := fun he => h (he ▸ List.mem_cons_self c rest)
    have hr : '\n' ∉ rest := fun hm => h (List.mem_cons_of_mem c hm)
    simp only [splitLines, if_neg (fun he => hc he)]
    rw [ih hr]

/-- Splitting a text that starts with a newline-free segment followed by a
newline splits off that segment as the first line. -/
lemma splitLines_append_nl : ∀ (x r : List Char), '\n' ∉ x →
    splitLines (x ++ '\n' :: r) = x :: splitLines r := by
  intro x
  induction x with
  | nil =>
    intro r _
    simp [splitLines]
  | cons c x' ih =>
    intro r h
    have hc : c ≠ '\n' := fun he => h (he ▸ List.mem_cons_self c x')
    have hx : '\n' ∉ x' := fun hm => h (List.mem_cons_of_mem c hm)
    simp only [List.cons_append, splitLines, if_neg (fun he => hc he), List.append_eq]
    rw [ih r hx]

/-- Splitting at a leading newline yields an empty first line. -/
lemma splitLines_cons_nl (r : List Char) : splitLines ('\n' :: r) = [] :: splitLines r := by
  simp [splitLines]

/-- Every produced line is newline-free. -/
lemma mem_splitLines_no_nl : ∀ (s l : List Char), l ∈ splitLines s → '\n' ∉ l := by
  intro s
  induction s with
  | nil =>
    intro l hl
    simp only [splitLines, List.mem_singleton] at hl
    subst hl
    simp
  | cons c rest ih =>
    intro l hl
    by_cases hc : c = '\n'
    · subst hc
      rw [splitLines_cons_nl] at hl
      rcases List.mem_cons.mp hl with h | h
      · subst h
        simp
      · exact ih l h
    · simp only [splitLines, if_neg (fun he => hc he)] at hl
      cases hL : splitLines rest with
      | nil => exact absurd hL (splitLines_ne_nil rest)
      | cons l0 ls =>
        rw [hL] at hl
        rcases List.mem_cons.mp hl with h | h
        · subst h
          intro hm
          rcases List.mem_cons.mp hm with h2 | h2
          · exact hc h2.symm
          · exact ih l0 (hL ▸ List.mem_cons_self l0 ls) h2
        · exact ih l (hL ▸ List.mem_cons_of_mem l0 h)

/-- The head surviving a `dropWhile` refutes the predicate. -/
lemma dropWhile_head_false (p : Char → Bool) :
    ∀ (l : List Char) (a : Char) (t : List Char), l.dropWhile p = a :: t → p a = false := by
  intro l
  induction l with
  | nil => intro a t h; simp at h
  | cons c l' ih =>
    intro a t h
    rw [List.dropWhile_cons] at h
    split at h
    · exact ih a t h
    · cases h
      simp_all

/-- `dropWhile` keeps the final element when it keeps anything. -/
lemma dropWhile_getLast? (p : Char → Bool) :
    ∀ l : List Char, l.dropWhile p ≠ [] → (l.dropWhile p).getLast? = l.getLast? := by
  intro l
  induction l with
  | nil => intro h; simp at h
  | cons c l' ih =>
    intro h
    by_cases hp : p c
    · rw [List.dropWhile_cons, if_pos hp] at h ⊢
      have hl' : l' ≠ [] := by
        intro he
        rw [he] at h
        simp at h
      obtain ⟨x, xs, rfl⟩ : ∃ x xs, l' = x :: xs := by
        cases l' with
        | nil => exact absurd rfl hl'
        | cons x xs => exact ⟨x, xs, rfl⟩
      rw [ih h]
      simp [List.getLast?_cons_cons]
    · rw [List.dropWhile_cons, if_neg hp]

/-- A trim-invariant list survives a leading `dropWhile`. -/
lemma dropWhile_eq_self_of_trimInv :
    ∀ l : List Char, listTrim l = l → l.dropWhile Char.isWhitespace = l := by
  intro l h
  cases l with
  | nil => rfl
  | cons a l' =>
    by_cases ha : a.isWhitespace
    · exfalso
      have s1 : ∀ y : List Char, (y.dropWhile Char.isWhitespace).length ≤ y.length :=
        fun y => (List.dropWhile_suffix Char.isWhitespace).sublist.length_le
      have hlen : (listTrim (a :: l')).length ≤ l'.length := by
        have e1 : listTrim (a :: l') =
            ((l'.dropWhile Char.isWhitespace).reverse.dropWhile Char.isWhitespace).reverse := by
          simp [listTrim, List.dropWhile_cons, ha]
        rw [e1, List.length_reverse]
        calc ((l'.dropWhile Char.isWhitespace).reverse.dropWhile Char.isWhitespace).length
            ≤ (l'.dropWhile Char.isWhitespace).reverse.length := s1 _
          _ = (l'.dropWhile Char.isWhitespace).length := List.length_reverse _
          _ ≤ l'.length := s1 _
      rw [h] at hlen
      simp at hlen
    · rw [List.dropWhile_cons, if_neg ha]

/-- Trimmed content only uses characters of the original. -/
lemma listTrim_subset : ∀ (l : List Char) (c : Char), c ∈ listTrim l → c ∈ l := by
  intro l c hc
  simp only [listTrim, List.mem_reverse] at hc
  have h1 := (List.dropWhile_suffix (l := (l.dropWhile Char.isWhitespace).reverse)
    Char.isWhitespace).sublist.subset hc
  rw [List.mem_reverse] at h1
  exact (List.dropWhile_suffix Char.isWhitespace).sublist.subset h1

/-- Trimming is idempotent. -/
lemma listTrim_idem : ∀ l : List Char, listTrim (listTrim l) = listTrim l := by
  intro l
  by_cases hv : (l.dropWhile Char.isWhitespace).reverse.dropWhile Char.isWhitespace = []
  · simp [listTrim, hv]
  · cases hvl : (l.dropWhile Char.isWhitespace).reverse.dropWhile Char.isWhitespace with
    | nil => exact absurd hvl hv
    | cons a t =>
      have hfa : a.isWhitespace = false := dropWhile_head_false _ _ a t hvl
      have hlast : (a :: t).getLast? = (l.dropWhile Char.isWhitespace).reverse.getLast? := by
        rw [← hvl]
        exact dropWhile_getLast? _ _ hv
      rw [List.getLast?_reverse] at hlast
      have hu : l.dropWhile Char.isWhitespace ≠ [] := by
        intro he
        rw [he] at hvl
        simp at hvl
      obtain ⟨bh, bu, hbu⟩ : ∃ bh bu, l.dropWhile Char.isWhitespace = bh :: bu := by
        cases hcu : l.dropWhile Char.isWhitespace with
        | nil => exact absurd hcu hu
        | cons x xs => exact ⟨x, xs, rfl⟩
      have hfb : bh.isWhitespace = false := dropWhile_head_false _ _ bh bu hbu
      have hlast2 : (a :: t).getLast? = some bh := by
        rw [hlast, hbu]
        rfl
      -- the reverse of the trimmed list starts with the non-whitespace bh
      have hrev : ∃ rt, (a :: t).reverse = bh :: rt := by
        have hne : (a :: t).reverse ≠ [] := by simp
        cases hr : (a :: t).reverse with
        | nil => exact absurd hr hne
        | cons x xs =>
          refine ⟨xs, ?_⟩
          have hx : (a :: t).getLast? = some x := by
            have := congrArg List.head? hr
            rwa [List.head?_reverse] at this
          rw [hlast2] at hx
          cases hx
          rfl
      obtain ⟨rt, hrt⟩ := hrev
      simp only [listTrim, hvl]
      rw [hrt, List.dropWhile_cons, if_neg (by simp [hfb]), ← hrt, List.reverse_reverse,
        List.dropWhile_cons, if_neg (by simp [hfa])]

/-- Trimming ignores a leading whitespace character. -/
lemma listTrim_cons_ws (c : Char) (l : List Char) (hc : c.isWhitespace = true) :
    listTrim (c :: l) = listTrim l := by
  simp [listTrim, List.dropWhile_cons, hc]

/-- The defaulted last element of a nonempty list is a member. -/
lemma getLastD_mem : ∀ (l : List Char) (d : Char), l ≠ [] → l.getLastD d ∈ l := by
  intro l
  induction l with
  | nil => intro d h; exact absurd rfl h
  | cons c l' ih =>
    intro d _
    rw [List.getLastD_cons]
    by_cases hl : l' = []
    · subst hl
      simp
    · exact List.mem_cons_of_mem c (ih c hl)

/-- The capture of a heading match uses only characters of the line. -/
lemma headingCapture_subset : ∀ (l cap : List Char), headingCapture l = some cap →
    ∀ c ∈ cap, c ∈ l := by
  intro l cap h c hc
  cases l with
  | nil => simp [headingCapture] at h
  | cons a l1 =>
    cases l1 with
    | nil => simp [headingCapture] at h
    | cons x rest =>
      simp only [headingCapture] at h
      split at h
      · split at h
        · cases h
          rcases List.mem_singleton.mp hc with rfl
          exact List.mem_cons_of_mem a (getLastD_mem (x :: rest) x (by simp))
        · cases h
          have := (List.dropWhile_suffix Char.isWhitespace).sublist.subset hc
          exact List.mem_cons_of_mem a this
      · cases h

/-- The capture returned by `splitAtHeading` comes from one of the lines. -/
lemma splitAtHeading_capture_mem :
    ∀ (ls : List (List Char)) (pre : List (List Char)) (cap : List Char)
      (post : List (List Char)), splitAtHeading ls = some (pre, cap, post) →
    ∃ l ∈ ls, headingCapture l = some cap := by
  intro ls
  induction ls with
  | nil => intro pre cap post h; simp [splitAtHeading] at h
  | cons l ls' ih =>
    intro pre cap post h
    simp only [splitAtHeading] at h
    cases hc : headingCapture l with
    | some c0 =>
      rw [hc] at h
      cases h
      exact ⟨l, List.mem_cons_self l ls', hc⟩
    | none =>
      rw [hc] at h
      cases hrec : splitAtHeading ls' with
      | none =>
        rw [hrec] at h
        cases h
      | some triple =>
        obtain ⟨pre0, cap0, post0⟩ := triple
        rw [hrec] at h
        cases h
        obtain ⟨l0, hl0, hcap0⟩ := ih _ _ _ hrec
        exact ⟨l0, List.mem_cons_of_mem l hl0, hcap0⟩

/-- A string with empty character data is the empty string. -/
lemma str_data_nil (s : String) (h : s.data = []) : s = "" := by
  cases s with
  | mk d =>
    simp only at h
    subst h
    rfl

/-- A heading line built from a nonempty title with a non-whitespace
start matches with the title as capture. -/
lemma headingCapture_content (t : List Char) (ht0 : t ≠ [])
    (hdrop : t.dropWhile Char.isWhitespace = t) :
    headingCapture ('#' :: ' ' :: t) = some t := by
  simp only [headingCapture]
  rw [if_pos (by exact ⟨by trivial, by decide, ht0⟩)]
  have htail : (' ' :: t).dropWhile Char.isWhitespace = t := by
    rw [List.dropWhile_cons, if_pos (by decide)]
    exact hdrop
  simp only [htail]
  rw [if_neg ht0]

/-- The status resolved for an open issue is never `done`. -/
lemma resolveOpen_ne_done (login : Option String) (issue : GitHubIssue) :
    resolveOpenIssueStatus login issue ≠ .done := by
  cases login with
  | none => simp [resolveOpenIssueStatus]
  | some u =>
    simp only [resolveOpenIssueStatus]
    split_ifs <;> simp

/-- Core of the round trip: re-extracting title and body from content
rebuilt out of a well-formed extracted pair returns the pair itself. -/
lemma roundtrip_core (t b : String)
    (ht0 : t.data ≠ []) (htr : listTrim t.data = t.data) (htn : '\n' ∉ t.data)
    (hbr : listTrim b.data = b.data) :
    getTitleFromContent (buildContent t b) = t ∧ extractBody (buildContent t b) = b := by
  have hdrop : t.data.dropWhile Char.isWhitespace = t.data :=
    dropWhile_eq_self_of_trimInv t.data htr
  have hcap : headingCapture ('#' :: ' ' :: t.data) = some t.data :=
    headingCapture_content t.data ht0 hdrop
  have hmkt : (⟨listTrim t.data⟩ : String) = t := by
    rw [htr]
  by_cases hb : b = ""
  · subst hb
    have hcontent : (buildContent t "").data = '#' :: ' ' :: t.data := by
      simp [buildContent, String.data_append]
    have hnl : '\n' ∉ (buildContent t "").data := by
      rw [hcontent]
      simp only [List.mem_cons]
      push_neg
      exact ⟨by decide, by decide, fun hm => htn hm⟩
    have hsplit : splitLines (buildContent t "").data = ['#' :: ' ' :: t.data] := by
      rw [splitLines_no_newline _ hnl, hcontent]
    constructor
    · simp only [getTitleFromContent, hsplit, splitAtHeading, hcap]
      exact hmkt
    · simp only [extractBody, hsplit, splitAtHeading, hcap]
      rfl
  · have hcontent : (buildContent t b).data =
        ('#' :: ' ' :: t.data) ++ '\n' :: '\n' :: b.data := by
      simp [buildContent, hb, String.data_append]
    have hxnl : '\n' ∉ '#' :: ' ' :: t.data := by
      simp only [List.mem_cons]
      push_neg
      exact ⟨by decide, by decide, fun hm => htn hm⟩
    have hsplit : splitLines (buildContent t b).data =
        ('#' :: ' ' :: t.data) :: [] :: splitLines b.data := by
      rw [hcontent, splitLines_append_nl _ _ hxnl, splitLines_cons_nl]
    constructor
    · simp only [getTitleFromContent, hsplit, splitAtHeading, hcap]
      exact hmkt
    · simp only [extractBody, hsplit, splitAtHeading, hcap]
      have hjoin : joinLines ([] :: splitLines b.data) = '\n' :: b.data := by
        cases hL : splitLines b.data with
        | nil => exact absurd hL (splitLines_ne_nil b.data)
        | cons l0 ls =>
          have hj := joinLines_splitLines b.data
          rw [hL] at hj
          have hstep : joinLines ([] :: l0 :: ls) = '\n' :: joinLines (l0 :: ls) := rfl
          rw [hstep, hj]
      rw [hjoin, listTrim_cons_ws '\n' b.data (by decide), hbr]

/-- Claim C9 counterexample: a record whose content is a heading marker
followed only by whitespace extracts an empty title; pushing it and
applying the resulting remote record back yields the fallback title
`Untitled` and a different body, so the round trip does not reproduce the
pushed triple. -/
theorem c9_counterexample :
    pushExtract
      (updateFeatureFromIssue none 100
        ⟨"f", .backlog, "medium", none, none, 0, 5, none, [], 0, "#  ", "p",
          some ⟨1, "o/r", "u", 10⟩⟩
        { number := 1, title := getTitleFromContent "#  ",
          body := some (extractBody "#  "), state := toRemoteState .backlog,
          html_url := "u", updated_at := 20, pull_request := false,
          assignee := none, labels := [] }) ≠
    pushExtract
      ⟨"f", .backlog, "medium", none, none, 0, 5, none, [], 0, "#  ", "p",
        some ⟨1, "o/r", "u", 10⟩⟩ := by
  decide

/-- Claim C9 (amended): pushing a linked record (title from the first
heading line, body the trimmed text after it, `done` mapped to closed and
every other status to open) and immediately applying the resulting remote
record back reproduces the same title, body, and state, provided the
extracted title is nonempty and the extracted body is unchanged by
trimming (both hold automatically whenever a heading line matches with a
capture that trims to a nonempty title). -/
theorem c9_round_trip (login : Option String) (now : Int) (f : Feature)
    (g : GitHubMeta) (prev : GitHubIssue) (hg : f.github = some g)
    (ht : getTitleFromContent f.content ≠ "")
    (hb : listTrim (extractBody f.content).data = (extractBody f.content).data) :
    pushExtract (updateFeatureFromIssue login now f
      { prev with
        title := getTitleFromContent f.content
        body := some (extractBody f.content)
        state := toRemoteState f.status }) = pushExtract f := by
  set i1 : GitHubIssue :=
    { prev with
      title := getTitleFromContent f.content
      body := some (extractBody f.content)
      state := toRemoteState f.status } with hi1
  have htr : listTrim (getTitleFromContent f.content).data =
      (getTitleFromContent f.content).data := by
    cases hsp : splitAtHeading (splitLines f.content.data) with
    | none =>
      simp only [getTitleFromContent, hsp]
      decide
    | some triple =>
      obtain ⟨pre, cap, post⟩ := triple
      simp only [getTitleFromContent, hsp]
      exact listTrim_idem cap
  have htn : '\n' ∉ (getTitleFromContent f.content).data := by
    cases hsp : splitAtHeading (splitLines f.content.data) with
    | none =>
      simp only [getTitleFromContent, hsp]
      decide
    | some triple =>
      obtain ⟨pre, cap, post⟩ := triple
      simp only [getTitleFromContent, hsp]
      intro hm
      obtain ⟨l, hl, hcap⟩ := splitAtHeading_capture_mem _ _ _ _ hsp
      exact mem_splitLines_no_nl f.content.data l hl
        (headingCapture_subset l cap hcap '\n' (listTrim_subset cap '\n' hm))
  have ht0 : (getTitleFromContent f.content).data ≠ [] := by
    intro h
    exact ht (str_data_nil _ h)
  have hcontent : (updateFeatureFromIssue login now f i1).content =
      buildContent (getTitleFromContent f.content) (extractBody f.content) := rfl
  have hcore := roundtrip_core (getTitleFromContent f.content) (extractBody f.content)
    ht0 htr htn hb
  have hstate : toRemoteState (updateFeatureFromIssue login now f i1).status =
      toRemoteState f.status := by
    by_cases hd : f.status = FeatureStatus.done
    · simp [updateFeatureFromIssue, toRemoteState, hd]
    · have hro := resolveOpen_ne_done login i1
      simp [updateFeatureFromIssue, toRemoteState, hd, hro]
  simp only [pushExtract, hcontent, hcore.1, hcore.2, hstate]

/-- Claim C9 witness: a concrete well-formed record whose push round
trips exactly. -/
theorem c9_round_trip_witness :
    pushExtract (updateFeatureFromIssue none 100
      ⟨"f", .todo, "medium", none, none, 0, 5, none, [], 0, "# T\n\nbody", "p",
        some ⟨1, "o/r", "u", 10⟩⟩
      { (⟨1, "old", some "ob", .open, "u", 20, false, none, []⟩ : GitHubIssue) with
        title := getTitleFromContent "# T\n\nbody"
        body := some (extractBody "# T\n\nbody")
        state := toRemoteState .todo }) =
    pushExtract
      ⟨"f", .todo, "medium", none, none, 0, 5, none, [], 0, "# T\n\nbody", "p",
        some ⟨1, "o/r", "u", 10⟩⟩ :=
  c9_round_trip none 100
    ⟨"f", .todo, "medium", none, none, 0, 5, none, [], 0, "# T\n\nbody", "p",
      some ⟨1, "o/r", "u", 10⟩⟩
    ⟨1, "o/r", "u", 10⟩
    ⟨1, "old", some "ob", .open, "u", 20, false, none, []⟩
    (by decide) (by decide) (by decide)

end Kanban
